import Mathlib

/-!
Shallow embedding of the core of the `f5xc-api-fixed` repository:
the constraint validator (`scripts/utils/constraint_validator.py`),
the adaptive rate limiter (`scripts/utils/auth.py`), and the spec
reconciler (`scripts/reconcile.py`), together with theorems checking
the natural-language specification against this embedding.

Modelling conventions:
* Python JSON-like values are the inductive `JValue`; Python `dict`s are
  association lists whose keys are unique in every value actually built
  by the code (lookups take the first match, mirroring `dict` semantics).
* Python `float` arithmetic is idealised as exact rational arithmetic
  (`ℚ`); none of the verified properties depends on rounding.
* Time and `time.sleep` are idealised: a call receives the current clock
  as an explicit argument, computation takes zero time, and `sleep d`
  advances the clock by exactly `d`.
* Paths through Python code that raise an exception are represented by
  `none` / empty results; the verified properties only exercise
  non-raising executions.
-/

namespace F5XC

/-- JSON-like value domain for schema documents, constraint values and
test-case values.  `int` and `num` are kept distinct because the Python
code branches on `isinstance(x, int)` vs `isinstance(x, (int, float))`. -/
inductive JValue where
  | null : JValue
  | bool : Bool → JValue
  | int : Int → JValue
  | num : ℚ → JValue
  | str : String → JValue
  | arr : List JValue → JValue
  | obj : List (String × JValue) → JValue

mutual

/-- Python `==` on JSON-like values, modelled as structural equality.
(Python's cross-type numeric equality `50 == 50.0` is not identified;
the verified properties only compare values of matching types.) -/
def jeq : JValue → JValue → Bool
  | .null, .null => true
  | .bool x, .bool y => x == y
  | .int x, .int y => x == y
  | .num x, .num y => x == y
  | .str x, .str y => x == y
  | .arr xs, .arr ys => jeqList xs ys
  | .obj xs, .obj ys => jeqPairs xs ys
  | _, _ => false

def jeqList : List JValue → List JValue → Bool
  | [], [] => true
  | x :: xs, y :: ys => jeq x y && jeqList xs ys
  | _, _ => false

def jeqPairs : List (String × JValue) → List (String × JValue) → Bool
  | [], [] => true
  | (k, x) :: xs, (k', y) :: ys => k == k' && jeq x y && jeqPairs xs ys
  | _, _ => false

end

mutual

theorem jeq_refl : ∀ v : JValue, jeq v v = true
  | .null => rfl
  | .bool x => by simp [jeq]
  | .int x => by simp [jeq]
  | .num x => by simp [jeq]
  | .str x => by simp [jeq]
  | .arr xs => by simp [jeq, jeqList_refl xs]
  | .obj xs => by simp [jeq, jeqPairs_refl xs]

theorem jeqList_refl : ∀ xs : List JValue, jeqList xs xs = true
  | [] => rfl
  | x :: xs => by simp [jeqList, jeq_refl x, jeqList_refl xs]

theorem jeqPairs_refl : ∀ xs : List (String × JValue), jeqPairs xs xs = true
  | [] => rfl
  | (k, x) :: xs => by simp [jeqPairs, jeq_refl x, jeqPairs_refl xs]

end

namespace JValue

/-- `d.get(k)` on a Python dict: first binding for `k`, if the value is a
dict at all (`none` otherwise, and for absent keys). -/
def get : JValue → String → Option JValue
  | .obj kvs, k => (kvs.find? (fun p => p.1 = k)).map Prod.snd
  | _, _ => none

/-- `k in d` on a Python dict. -/
def hasKey (v : JValue) (k : String) : Bool :=
  (v.get k).isSome

/-- Replace the first binding for `k` in an association list, or append
a new binding when `k` is absent. -/
def setKeyList : List (String × JValue) → String → JValue → List (String × JValue)
  | [], k, x => [(k, x)]
  | (k', v') :: rest, k, x =>
      if k' = k then (k, x) :: rest else (k', v') :: setKeyList rest k x

/-- `d[k] = x` on a Python dict. -/
def setKey : JValue → String → JValue → JValue
  | .obj kvs, k, x => .obj (setKeyList kvs k x)
  | v, _, _ => v

/-- `isinstance(v, dict)`. -/
def isObj : JValue → Bool
  | .obj _ => true
  | _ => false

/-- Python truthiness test `not v` for the values a schema lookup can
return: `None` and the empty dict are falsy. -/
def isFalsy : JValue → Bool
  | .null => true
  | .obj [] => true
  | .arr [] => true
  | .str "" => true
  | .bool b => !b
  | .int n => n = 0
  | .num q => q = 0
  | _ => false

end JValue

/-! ## Constraint validator (`scripts/utils/constraint_validator.py`) -/

/-- `DiscrepancyType` enum. -/
inductive DiscrepancyType where
  | SPEC_STRICTER
  | SPEC_LOOSER
  | MISSING_CONSTRAINT
  | EXTRA_CONSTRAINT
  | CONSTRAINT_MISMATCH
  | TYPE_MISMATCH
deriving DecidableEq

/-- `ValidationTestCase` dataclass. -/
structure ValidationTestCase where
  name : String
  value : JValue
  expected_valid : Bool
  description : String := ""

/-- `Discrepancy` dataclass. -/
structure Discrepancy where
  path : String
  property_name : String
  constraint_type : String
  discrepancy_type : DiscrepancyType
  spec_value : JValue
  api_behavior : JValue
  test_values : List JValue := []
  recommendation : String := ""

/-- `test_case.name.split("_")[0]`: the part of the name before the first
underscore (the whole name when it has none). -/
def splitHead (s : String) : String :=
  ⟨s.data.takeWhile (fun c => c ≠ '_')⟩

/-- `ConstraintValidator.compare_results`: no discrepancy when the spec's
expectation agrees with the API's verdict; otherwise classify the
mismatch and derive `constraint_type` from the test-case name. -/
def compare_results (test_case : ValidationTestCase) (api_accepted : Bool) :
    Option Discrepancy :=
  if test_case.expected_valid = api_accepted then
    none
  else
    let discrepancy_type :=
      if test_case.expected_valid ∧ ¬api_accepted then
        DiscrepancyType.SPEC_LOOSER
      else
        DiscrepancyType.SPEC_STRICTER
    some
      { path := ""
        property_name := ""
        constraint_type := splitHead test_case.name
        discrepancy_type := discrepancy_type
        spec_value := .bool test_case.expected_valid
        api_behavior := .bool api_accepted
        test_values := [test_case.value] }

/-- C1: `compare_results` returns `none` iff the expectation matches the
observed verdict; otherwise the emitted discrepancy is `SPEC_LOOSER`
exactly when `expected_valid = true, api_accepted = false`, and
`SPEC_STRICTER` exactly when `expected_valid = false, api_accepted = true`. -/
theorem compare_results_classification
    (tc : ValidationTestCase) (api_accepted : Bool) :
    (compare_results tc api_accepted = none ↔ tc.expected_valid = api_accepted) ∧
    (tc.expected_valid = true → api_accepted = false →
      ∃ d, compare_results tc api_accepted = some d ∧
        d.discrepancy_type = DiscrepancyType.SPEC_LOOSER) ∧
    (tc.expected_valid = false → api_accepted = true →
      ∃ d, compare_results tc api_accepted = some d ∧
        d.discrepancy_type = DiscrepancyType.SPEC_STRICTER) := by
  unfold compare_results
  rcases h1 : tc.expected_valid <;> rcases h2 : api_accepted <;> simp

/-! ## Adaptive rate limiter (`scripts/utils/auth.py`) -/

/-- Python `int(q)` for a rational: truncation toward zero. -/
def pyInt (q : ℚ) : ℤ :=
  q.num.tdiv q.den

/-- `RateLimitConfig` dataclass with its default values (floats as exact
rationals). -/
structure RateLimitConfig where
  requests_per_minute : ℤ := 30
  requests_per_second : ℤ := 2
  min_request_interval : ℚ := 1/2
  initial_backoff : ℚ := 1
  max_backoff : ℚ := 60
  backoff_multiplier : ℚ := 2
  adaptive : Bool := true
  decrease_factor : ℚ := 4/5
  increase_factor : ℚ := 11/10
  success_streak_threshold : ℕ := 50

/-- Mutable state of a `RateLimiter` instance.  `request_times` is the
sliding-window deque (`maxlen=100`), oldest first. -/
structure RateLimiterState where
  config : RateLimitConfig
  request_times : List ℚ
  current_backoff : ℚ
  success_streak : ℕ
  current_rpm : ℤ

/-- `RateLimiter.__init__`. -/
def RateLimiter.mkInit (config : RateLimitConfig) : RateLimiterState :=
  { config := config
    request_times := []
    current_backoff := config.initial_backoff
    success_streak := 0
    current_rpm := config.requests_per_minute }

/-- The rate limiter built from the default `RateLimitConfig`. -/
def defaultRL : RateLimiterState := RateLimiter.mkInit {}

/-- `deque(maxlen=100).append`: append on the right, evicting from the
left when the deque is full. -/
def dequeAppend (xs : List ℚ) (t : ℚ) : List ℚ :=
  let ys := xs ++ [t]
  ys.drop (ys.length - 100)

/-- The requests-per-minute branch of `wait_if_needed`: when the cleaned
window already holds `current_rpm` entries, sleep
`60 - (now - oldest) + 0.1` seconds and re-read the clock.  (On an empty
window with `rpm ≤ 0` the Python code would raise `IndexError`; that
state is unreachable, and the clock is returned unchanged here.) -/
def rpmWait (times : List ℚ) (rpm : ℤ) (now : ℚ) : ℚ :=
  if rpm ≤ (times.length : ℤ) then
    match times with
    | [] => now
    | oldest :: _ =>
        let wait := 60 - (now - oldest) + 1/10
        if 0 < wait then now + wait else now
  else now

/-- The minimum-interval branch of `wait_if_needed`: if less than
`min_request_interval` elapsed since the last recorded request, sleep the
difference; the appended timestamp is the post-sleep clock. -/
def intervalWait (times : List ℚ) (min_interval : ℚ) (t : ℚ) : ℚ :=
  match times.getLast? with
  | none => t
  | some last => if t - last < min_interval then last + min_interval else t

/-- `RateLimiter.wait_if_needed`, idealised over an explicit clock `now`:
drop entries older than 60 s from the front of the deque, sleep for
window capacity, enforce the minimum inter-request interval, and record
the admission time.  Returns the new state and the admission timestamp. -/
def wait_if_needed (s : RateLimiterState) (now : ℚ) : RateLimiterState × ℚ :=
  let times := s.request_times.dropWhile (fun u => decide (60 < now - u))
  let now2 := rpmWait times s.current_rpm now
  let adm := intervalWait times s.config.min_request_interval now2
  ({ s with request_times := dequeAppend times adm }, adm)

/-- `RateLimiter.record_success`. -/
def record_success (s : RateLimiterState) : RateLimiterState :=
  if !s.config.adaptive then s
  else
    let streak := s.success_streak + 1
    let s1 := { s with
      success_streak := streak
      current_backoff := s.config.initial_backoff }
    if s.config.success_streak_threshold ≤ streak then
      let new_rpm := min (pyInt ((s1.current_rpm : ℚ) * s.config.increase_factor))
        (s.config.requests_per_minute * 2)
      let s2 := if s1.current_rpm < new_rpm then { s1 with current_rpm := new_rpm } else s1
      { s2 with success_streak := 0 }
    else s1

/-- `RateLimiter.record_rate_limit`: reset the streak, shrink the
ceiling (floored at 5 RPM), and return the current backoff after
doubling the stored one (capped at `max_backoff`). -/
def record_rate_limit (s : RateLimiterState) : RateLimiterState × ℚ :=
  let s1 := { s with success_streak := 0 }
  let shrunk := max 5 (pyInt ((s1.current_rpm : ℚ) * s.config.decrease_factor))
  let s2 := if s.config.adaptive then { s1 with current_rpm := shrunk } else s1
  let backoff := s2.current_backoff
  let grown := min (s2.current_backoff * s.config.backoff_multiplier) s.config.max_backoff
  ({ s2 with current_backoff := grown }, backoff)

/-- One external event applied to the rate limiter. -/
inductive RLOp where
  | wait (now : ℚ)
  | success
  | rateLimit

/-- Apply one operation (dropping returned values). -/
def rlStep (s : RateLimiterState) : RLOp → RateLimiterState
  | .wait now => (wait_if_needed s now).1
  | .success => record_success s
  | .rateLimit => (record_rate_limit s).1

/-- Run a sequence of operations. -/
def rlRun (s : RateLimiterState) (ops : List RLOp) : RateLimiterState :=
  ops.foldl rlStep s

/-- Invariant of the default-configured rate limiter: the configuration
never changes, the ceiling stays within `[5, 60]` and the backoff within
`[1, 60]`. -/
def RLInv (s : RateLimiterState) : Prop :=
  s.config = {} ∧ 5 ≤ s.current_rpm ∧ s.current_rpm ≤ 60 ∧
    1 ≤ s.current_backoff ∧ s.current_backoff ≤ 60

theorem pyInt_of_nonneg {q : ℚ} (h : 0 ≤ q) : pyInt q = ⌊q⌋ := by
  unfold pyInt
  rw [Rat.floor_def, Int.tdiv_eq_ediv (Rat.num_nonneg.mpr h) (by positivity)]

theorem RLInv_init : RLInv defaultRL := by
  refine ⟨rfl, ?_, ?_, ?_, ?_⟩ <;> norm_num [defaultRL, RateLimiter.mkInit]

theorem RLInv_wait (s : RateLimiterState) (now : ℚ) (h : RLInv s) :
    RLInv (wait_if_needed s now).1 := by
  obtain ⟨hc, h1, h2, h3, h4⟩ := h
  exact ⟨hc, h1, h2, h3, h4⟩

theorem RLInv_success (s : RateLimiterState) (h : RLInv s) :
    RLInv (record_success s) := by
  obtain ⟨hc, h1, h2, h3, h4⟩ := h
  unfold record_success
  rw [hc]
  simp only [show ({} : RateLimitConfig).adaptive = true from rfl,
    show ({} : RateLimitConfig).initial_backoff = 1 from rfl,
    show ({} : RateLimitConfig).success_streak_threshold = 50 from rfl,
    show ({} : RateLimitConfig).requests_per_minute = 30 from rfl,
    show ({} : RateLimitConfig).increase_factor = 11/10 from rfl,
    Bool.not_true]
  split
  · exact ⟨hc, h1, h2, h3, h4⟩
  · split
    · split
      · rename_i hlt
        refine ⟨rfl, ?_, ?_, by norm_num, by norm_num⟩
        · exact le_of_lt (lt_of_le_of_lt h1 hlt)
        · calc min (pyInt ((s.current_rpm : ℚ) * (11/10))) (30 * 2) ≤ 30 * 2 :=
                min_le_right _ _
            _ ≤ 60 := by norm_num
      · exact ⟨rfl, h1, h2, by norm_num, by norm_num⟩
    · exact ⟨rfl, h1, h2, by norm_num, by norm_num⟩

theorem RLInv_rateLimit (s : RateLimiterState) (h : RLInv s) :
    RLInv (record_rate_limit s).1 := by
  obtain ⟨hc, h1, h2, h3, h4⟩ := h
  unfold record_rate_limit
  rw [hc]
  simp only [show ({} : RateLimitConfig).adaptive = true from rfl,
    show ({} : RateLimitConfig).decrease_factor = 4/5 from rfl,
    show ({} : RateLimitConfig).backoff_multiplier = 2 from rfl,
    show ({} : RateLimitConfig).max_backoff = 60 from rfl,
    if_true]
  have hq : (0 : ℚ) ≤ (s.current_rpm : ℚ) * (4/5) := by
    have : (0 : ℚ) ≤ (s.current_rpm : ℚ) := by exact_mod_cast le_trans (by norm_num) h1
    positivity
  have hfl : pyInt ((s.current_rpm : ℚ) * (4/5)) ≤ 48 := by
    rw [pyInt_of_nonneg hq]
    have hle : (s.current_rpm : ℚ) * (4/5) ≤ 48 := by
      have : (s.current_rpm : ℚ) ≤ 60 := by exact_mod_cast h2
      linarith
    calc ⌊(s.current_rpm : ℚ) * (4/5)⌋ ≤ ⌊(48 : ℚ)⌋ := Int.floor_le_floor hle
      _ = 48 := by norm_num
  refine ⟨rfl, le_max_left _ _, ?_, ?_, min_le_right _ _⟩
  · have := max_le (by norm_num : (5:ℤ) ≤ 60) (le_trans hfl (by norm_num))
    exact this
  · have h2b : (1 : ℚ) ≤ s.current_backoff * 2 := by linarith
    exact le_min h2b (by norm_num)

theorem RLInv_step (s : RateLimiterState) (op : RLOp) (h : RLInv s) :
    RLInv (rlStep s op) := by
  cases op with
  | wait now => exact RLInv_wait s now h
  | success => exact RLInv_success s h
  | rateLimit => exact RLInv_rateLimit s h

theorem RLInv_run (s : RateLimiterState) (ops : List RLOp) (h : RLInv s) :
    RLInv (rlRun s ops) := by
  induction ops generalizing s with
  | nil => exact h
  | cons op ops ih => exact ih _ (RLInv_step s op h)

/-- C3: along every sequence of operations from the default
configuration (baseline 30 RPM), the ceiling satisfies
`5 ≤ current_rpm ≤ 2 × baseline` — in particular before and after every
operation, since every intermediate state is the run of a prefix. -/
theorem rate_limiter_rpm_invariant (ops : List RLOp) :
    5 ≤ (rlRun defaultRL ops).current_rpm ∧
      (rlRun defaultRL ops).current_rpm ≤
        2 * defaultRL.config.requests_per_minute := by
  have h := RLInv_run defaultRL ops RLInv_init
  exact ⟨h.2.1, by simpa [defaultRL, RateLimiter.mkInit] using h.2.2.1⟩

/-- Closed instance of `rate_limiter_rpm_invariant` after one
rate-limit hit. -/
theorem rate_limiter_rpm_invariant_witness :
    5 ≤ (rlRun defaultRL [RLOp.rateLimit]).current_rpm ∧
      (rlRun defaultRL [RLOp.rateLimit]).current_rpm ≤
        2 * defaultRL.config.requests_per_minute :=
  rate_limiter_rpm_invariant [RLOp.rateLimit]

/-- State after `n` consecutive `record_rate_limit` calls (no
intervening `record_success`). -/
def rlHits (s : RateLimiterState) : ℕ → RateLimiterState
  | 0 => s
  | n + 1 => (record_rate_limit (rlHits s n)).1

theorem record_rate_limit_ret (s : RateLimiterState) :
    (record_rate_limit s).2 = s.current_backoff := by
  unfold record_rate_limit
  split <;> rfl

theorem record_rate_limit_backoff (s : RateLimiterState) :
    (record_rate_limit s).1.current_backoff =
      min (s.current_backoff * s.config.backoff_multiplier) s.config.max_backoff := by
  unfold record_rate_limit
  split <;> rfl

theorem RLInv_hits (s : RateLimiterState) (n : ℕ) (h : RLInv s) :
    RLInv (rlHits s n) := by
  induction n with
  | zero => exact h
  | succ n ih => exact RLInv_rateLimit _ ih

theorem rlHits_backoff_mono (s : RateLimiterState) (h : RLInv s) :
    ∀ {n m : ℕ}, n ≤ m →
      (rlHits s n).current_backoff ≤ (rlHits s m).current_backoff := by
  intro n m hnm
  induction m with
  | zero => simp_all
  | succ m ih =>
    rcases Nat.lt_or_ge n (m + 1) with hlt | hge
    · have hm : n ≤ m := Nat.lt_succ_iff.mp hlt
      refine le_trans (ih hm) ?_
      have hinv := RLInv_hits s m h
      obtain ⟨hc, -, -, h3, h4⟩ := hinv
      show (rlHits s m).current_backoff ≤ (record_rate_limit (rlHits s m)).1.current_backoff
      rw [record_rate_limit_backoff, hc]
      show (rlHits s m).current_backoff ≤ min ((rlHits s m).current_backoff * 2) 60
      exact le_min (by linarith) h4
    · have : n = m + 1 := le_antisymm hnm hge
      subst this
      exact le_refl _

/-- C5: from any reachable state of the default-configured limiter, the
values returned by consecutive `record_rate_limit` calls are
monotonically non-decreasing and never exceed the maximum backoff
(60 s); each call returns the backoff held before it doubles the stored
value (capped at 60); and a subsequent `record_success` resets the
backoff to the initial 1 s. -/
theorem record_rate_limit_backoff_behaviour
    (ops : List RLOp) (n m : ℕ) (hnm : n ≤ m) :
    (record_rate_limit (rlHits (rlRun defaultRL ops) n)).2 ≤
        (record_rate_limit (rlHits (rlRun defaultRL ops) m)).2 ∧
      (record_rate_limit (rlHits (rlRun defaultRL ops) n)).2 ≤ 60 ∧
      (record_rate_limit (rlHits (rlRun defaultRL ops) n)).2 =
        (rlHits (rlRun defaultRL ops) n).current_backoff ∧
      (record_rate_limit (rlHits (rlRun defaultRL ops) n)).1.current_backoff =
        min ((rlHits (rlRun defaultRL ops) n).current_backoff * 2) 60 ∧
      (record_success (rlHits (rlRun defaultRL ops) n)).current_backoff = 1 := by
  have hinv := RLInv_run defaultRL ops RLInv_init
  have hinvn := RLInv_hits _ n hinv
  obtain ⟨hc, -, -, h3, h4⟩ := hinvn
  refine ⟨?_, ?_, record_rate_limit_ret _, ?_, ?_⟩
  · rw [record_rate_limit_ret, record_rate_limit_ret]
    exact rlHits_backoff_mono _ hinv hnm
  · rw [record_rate_limit_ret]
    exact h4
  · rw [record_rate_limit_backoff, hc]
  · unfold record_success
    rw [hc]
    simp only [show ({} : RateLimitConfig).adaptive = true from rfl, Bool.not_true,
      Bool.false_eq_true, if_false]
    split
    · split <;> rfl
    · rfl

/-- Closed instance of `record_rate_limit_backoff_behaviour` at a
concrete run and pair of indices. -/
theorem record_rate_limit_backoff_behaviour_witness :
    (record_rate_limit (rlHits (rlRun defaultRL [RLOp.success]) 1)).2 ≤
        (record_rate_limit (rlHits (rlRun defaultRL [RLOp.success]) 3)).2 ∧
      (record_rate_limit (rlHits (rlRun defaultRL [RLOp.success]) 1)).2 ≤ 60 ∧
      (record_rate_limit (rlHits (rlRun defaultRL [RLOp.success]) 1)).2 =
        (rlHits (rlRun defaultRL [RLOp.success]) 1).current_backoff ∧
      (record_rate_limit (rlHits (rlRun defaultRL [RLOp.success]) 1)).1.current_backoff =
        min ((rlHits (rlRun defaultRL [RLOp.success]) 1).current_backoff * 2) 60 ∧
      (record_success (rlHits (rlRun defaultRL [RLOp.success]) 1)).current_backoff = 1 :=
  record_rate_limit_backoff_behaviour [RLOp.success] 1 3 (by norm_num)

/-! ### Sliding-window occupancy of `wait_if_needed` (C4) -/

/-- Number of recorded timestamps in the trailing 60-second window
`(t − 60, t]`. -/
def windowCount (s : RateLimiterState) (t : ℚ) : ℕ :=
  (s.request_times.filter (fun u => decide (t - u < 60) && decide (u ≤ t))).length

/-- Trace refuting the window bound: six admissions at 0 … 2.5 s, seven
rate-limit hits shrinking the ceiling from 30 to 5 RPM, then one more
`wait_if_needed` call at 2.5 s. -/
def c4Trace : List RLOp :=
  [RLOp.wait 0, RLOp.wait (1/2), RLOp.wait 1, RLOp.wait (3/2), RLOp.wait 2,
   RLOp.wait (5/2), RLOp.rateLimit, RLOp.rateLimit, RLOp.rateLimit, RLOp.rateLimit,
   RLOp.rateLimit, RLOp.rateLimit, RLOp.rateLimit, RLOp.wait (5/2)]

theorem length_filter_mono {α} (l : List α) (p q : α → Bool)
    (h : ∀ a ∈ l, p a = true → q a = true) :
    (l.filter p).length ≤ (l.filter q).length := by
  induction l with
  | nil => simp
  | cons x xs ih =>
    have ih' := ih (fun a ha => h a (List.mem_cons_of_mem x ha))
    by_cases hp : p x = true
    · rw [List.filter_cons_of_pos hp, List.filter_cons_of_pos (h x (List.mem_cons_self x xs) hp)]
      simpa using ih'
    · rw [List.filter_cons_of_neg (by simpa using hp)]
      by_cases hq : q x = true
      · rw [List.filter_cons_of_pos hq]
        exact le_trans ih' (Nat.le_succ _)
      · rw [List.filter_cons_of_neg (by simpa using hq)]
        exact ih'

theorem dropWhile_old_eq_filter (now : ℚ) :
    ∀ xs : List ℚ, xs.Sorted (· ≤ ·) →
      xs.dropWhile (fun u => decide (60 < now - u)) =
        xs.filter (fun u => decide (now - u ≤ 60))
  | [], _ => rfl
  | x :: xs, hs => by
    have hx : ∀ y ∈ xs, x ≤ y := List.rel_of_sorted_cons hs
    have hs' : xs.Sorted (· ≤ ·) := List.Sorted.of_cons hs
    by_cases hold : 60 < now - x
    · rw [List.dropWhile_cons_of_pos (by simpa using hold),
        List.filter_cons_of_neg (by simp; linarith)]
      exact dropWhile_old_eq_filter now xs hs'
    · push_neg at hold
      rw [List.dropWhile_cons_of_neg (by simpa using hold),
        List.filter_cons_of_pos (by simpa using hold)]
      congr 1
      symm
      apply List.filter_eq_self.mpr
      intro y hy
      have : x ≤ y := hx y hy
      simp only [decide_eq_true_eq]
      linarith

theorem rpmWait_ge (times : List ℚ) (rpm : ℤ) (now : ℚ) :
    now ≤ rpmWait times rpm now := by
  unfold rpmWait
  split
  · match times with
    | [] => exact le_refl _
    | oldest :: rest =>
      simp only
      split
      · linarith
      · exact le_refl _
  · exact le_refl _

theorem rpmWait_eq_of_sleep (oldest : ℚ) (rest : List ℚ) (rpm : ℤ) (now : ℚ)
    (hlen : rpm ≤ ((oldest :: rest).length : ℤ)) (hage : now - oldest ≤ 60) :
    rpmWait (oldest :: rest) rpm now = oldest + 60 + 1/10 := by
  unfold rpmWait
  rw [if_pos hlen]
  simp only
  rw [if_pos (by linarith)]
  ring

theorem intervalWait_ge (times : List ℚ) (miv t : ℚ) :
    t ≤ intervalWait times miv t := by
  unfold intervalWait
  match times.getLast? with
  | none => exact le_refl _
  | some last =>
    simp only
    split
    · linarith
    · exact le_refl _

/-- One admissible event for the limiter under a monotone clock, with
`record_rate_limit` excluded: a `wait_if_needed` call at any time `now`
at or after the clock moves the clock to the admission timestamp;
`record_success` leaves the clock unchanged. -/
inductive NoDecreaseStep : RateLimiterState × ℚ → RateLimiterState × ℚ → Prop
  | wait (s : RateLimiterState) (clock now : ℚ) (h : clock ≤ now) :
      NoDecreaseStep (s, clock) (wait_if_needed s now)
  | success (s : RateLimiterState) (clock : ℚ) :
      NoDecreaseStep (s, clock) (record_success s, clock)

/-- Inductive window invariant: the deque is sorted, bounded by the
clock, and holds at most `current_rpm` entries in the trailing closed
60-second window. -/
def WindowInv (p : RateLimiterState × ℚ) : Prop :=
  RLInv p.1 ∧ p.1.request_times.Sorted (· ≤ ·) ∧
    (∀ u ∈ p.1.request_times, u ≤ p.2) ∧
    ((p.1.request_times.filter (fun u => decide (p.2 - u ≤ 60))).length : ℤ) ≤
      p.1.current_rpm

theorem record_success_times (s : RateLimiterState) :
    (record_success s).request_times = s.request_times := by
  unfold record_success
  split
  · rfl
  · dsimp only
    split
    · split <;> rfl
    · rfl

theorem record_success_rpm_ge (s : RateLimiterState) :
    s.current_rpm ≤ (record_success s).current_rpm := by
  unfold record_success
  split
  · exact le_refl _
  · dsimp only
    split
    · split
      · rename_i hlt
        exact le_of_lt hlt
      · exact le_refl _
    · exact le_refl _

theorem WindowInv_success (s : RateLimiterState) (clock : ℚ)
    (h : WindowInv (s, clock)) : WindowInv (record_success s, clock) := by
  obtain ⟨hinv, hsort, hle, hcount⟩ := h
  refine ⟨RLInv_success s hinv, ?_, ?_, ?_⟩
  · rw [record_success_times]; exact hsort
  · rw [record_success_times]; exact hle
  · rw [record_success_times]
    exact le_trans hcount (record_success_rpm_ge s)

theorem sorted_append_singleton {l : List ℚ} {a : ℚ} (hs : l.Sorted (· ≤ ·))
    (h : ∀ u ∈ l, u ≤ a) : (l ++ [a]).Sorted (· ≤ ·) := by
  refine List.pairwise_append.mpr ⟨hs, List.sorted_singleton a, ?_⟩
  intro u hu b hb
  simp only [List.mem_singleton] at hb
  subst hb
  exact h u hu

theorem WindowInv_wait (s : RateLimiterState) (clock now : ℚ)
    (h : WindowInv (s, clock)) (hmono : clock ≤ now) :
    WindowInv (wait_if_needed s now) := by
  obtain ⟨hinv, hsort, hle, hcount⟩ := h
  have hrpm5 : 5 ≤ s.current_rpm := hinv.2.1
  have hclean := dropWhile_old_eq_filter now s.request_times hsort
  unfold wait_if_needed
  rw [hclean]
  set tms := s.request_times.filter (fun u => decide (now - u ≤ 60)) with htms
  set now2 := rpmWait tms s.current_rpm now with hnow2def
  set adm := intervalWait tms s.config.min_request_interval now2 with hadmdef
  have htsub : tms.Sublist s.request_times := List.filter_sublist _
  have htsort : tms.Sorted (· ≤ ·) := hsort.sublist htsub
  have htage : ∀ u ∈ tms, now - u ≤ 60 := by
    intro u hu
    have := (List.mem_filter.mp hu).2
    simpa using this
  have htmem : ∀ u ∈ tms, u ∈ s.request_times := fun u hu => htsub.mem hu
  have htclock : ∀ u ∈ tms, u ≤ clock := fun u hu => hle u (htmem u hu)
  have htlen : (tms.length : ℤ) ≤ s.current_rpm := by
    have hstep : ∀ u ∈ s.request_times,
        decide (now - u ≤ 60) = true → decide (clock - u ≤ 60) = true := by
      intro u _ hu
      have : now - u ≤ 60 := by simpa using hu
      simp only [decide_eq_true_eq]
      linarith
    have := length_filter_mono s.request_times _ _ hstep
    calc (tms.length : ℤ) ≤
        ((s.request_times.filter (fun u => decide (clock - u ≤ 60))).length : ℤ) := by
          exact_mod_cast this
      _ ≤ s.current_rpm := hcount
  have hnow2 : now ≤ now2 := rpmWait_ge tms s.current_rpm now
  have hadm2 : now2 ≤ adm := intervalWait_ge tms s.config.min_request_interval now2
  have hadm : now ≤ adm := le_trans hnow2 hadm2
  have htadm : ∀ u ∈ tms, u ≤ adm := by
    intro u hu
    have h1 : now - u ≤ 60 := htage u hu
    have h2 : u ≤ clock := htclock u hu
    linarith
  -- the count of closed-window entries after appending the admission
  have hkey : ((tms.filter (fun u => decide (adm - u ≤ 60))).length : ℤ) + 1 ≤
      s.current_rpm := by
    by_cases hsleep : s.current_rpm ≤ (tms.length : ℤ)
    · -- the window was full: the deque head ages out during the sleep
      have hlen_eq : (tms.length : ℤ) = s.current_rpm := le_antisymm htlen hsleep
      match htms' : tms with
      | [] =>
        simp only [List.length_nil, Nat.cast_zero] at hlen_eq
        omega
      | oldest :: rest =>
        have hage : now - oldest ≤ 60 := htage oldest (List.mem_cons_self _ _)
        have hnow2eq : now2 = oldest + 60 + 1/10 := by
          rw [hnow2def]
          exact rpmWait_eq_of_sleep oldest rest s.current_rpm now hsleep hage
        have hold_out : ¬(adm - oldest ≤ 60) := by
          have hx : now2 ≤ adm := hadm2
          rw [hnow2eq] at hx
          intro hcontra
          linarith
        rw [List.filter_cons_of_neg (by simpa using hold_out)]
        have hrest : ((rest.filter (fun u => decide (adm - u ≤ 60))).length : ℤ) ≤
            (rest.length : ℤ) := by
          exact_mod_cast List.length_filter_le _ _
        simp only [List.length_cons] at hlen_eq
        push_cast at hlen_eq
        omega
    · -- the window had spare capacity
      push_neg at hsleep
      have h1 : ((tms.filter (fun u => decide (adm - u ≤ 60))).length : ℤ) ≤
          (tms.length : ℤ) := by exact_mod_cast List.length_filter_le _ _
      omega
  refine ⟨?_, ?_, ?_, ?_⟩
  · exact hinv
  · show (dequeAppend tms adm).Sorted (· ≤ ·)
    unfold dequeAppend
    exact (sorted_append_singleton htsort htadm).sublist (List.drop_sublist _ _)
  · show ∀ u ∈ dequeAppend tms adm, u ≤ adm
    intro u hu
    have hu' : u ∈ tms ++ [adm] := (List.drop_sublist _ _).mem hu
    rcases List.mem_append.mp hu' with h1 | h1
    · exact htadm u h1
    · simp only [List.mem_singleton] at h1
      subst h1
      exact le_refl _
  · show (((dequeAppend tms adm).filter (fun u => decide (adm - u ≤ 60))).length : ℤ) ≤
      s.current_rpm
    have hdsub : ((dequeAppend tms adm).filter (fun u => decide (adm - u ≤ 60))).length ≤
        ((tms ++ [adm]).filter (fun u => decide (adm - u ≤ 60))).length := by
      unfold dequeAppend
      exact ((List.drop_sublist _ _).filter _).length_le
    have happ : ((tms ++ [adm]).filter (fun u => decide (adm - u ≤ 60))).length =
        (tms.filter (fun u => decide (adm - u ≤ 60))).length + 1 := by
      rw [List.filter_append]
      simp
    calc (((dequeAppend tms adm).filter (fun u => decide (adm - u ≤ 60))).length : ℤ)
        ≤ (((tms ++ [adm]).filter (fun u => decide (adm - u ≤ 60))).length : ℤ) := by
          exact_mod_cast hdsub
      _ = ((tms.filter (fun u => decide (adm - u ≤ 60))).length : ℤ) + 1 := by
          rw [happ]; push_cast; ring
      _ ≤ s.current_rpm := hkey

theorem WindowInv_init : WindowInv (defaultRL, 0) := by
  refine ⟨RLInv_init, ?_, ?_, ?_⟩ <;>
    simp [defaultRL, RateLimiter.mkInit]

theorem WindowInv_reach (p : RateLimiterState × ℚ)
    (h : Relation.ReflTransGen NoDecreaseStep (defaultRL, 0) p) : WindowInv p := by
  induction h with
  | refl => exact WindowInv_init
  | tail _ hstep ih =>
    cases hstep with
    | wait s clock now hmono => exact WindowInv_wait s clock now ih hmono
    | success s clock => exact WindowInv_success s clock ih

/-- C4 (amended): in every run of the default-configured limiter made of
`wait_if_needed` calls under a monotone clock and `record_success`
events — i.e. with no intervening `record_rate_limit` ceiling decrease —
the trailing 60-second window never holds more than `current_rpm`
recorded timestamps, in particular at each admission instant. -/
theorem wait_window_bound_no_decrease (p : RateLimiterState × ℚ)
    (h : Relation.ReflTransGen NoDecreaseStep (defaultRL, 0) p) :
    (windowCount p.1 p.2 : ℤ) ≤ p.1.current_rpm := by
  obtain ⟨-, -, -, hcount⟩ := WindowInv_reach p h
  refine le_trans ?_ hcount
  have hmono := length_filter_mono p.1.request_times
      (fun u => decide (p.2 - u < 60) && decide (u ≤ p.2))
      (fun u => decide (p.2 - u ≤ 60)) ?_
  · exact_mod_cast hmono
  · intro a _ ha
    simp only [Bool.and_eq_true, decide_eq_true_eq] at ha ⊢
    linarith [ha.1]

/-- Closed instance of `wait_window_bound_no_decrease` after a single
admission from the initial state. -/
theorem wait_window_bound_no_decrease_witness :
    (windowCount (wait_if_needed defaultRL 0).1 (wait_if_needed defaultRL 0).2 : ℤ) ≤
      (wait_if_needed defaultRL 0).1.current_rpm :=
  wait_window_bound_no_decrease (wait_if_needed defaultRL 0)
    (Relation.ReflTransGen.single (NoDecreaseStep.wait defaultRL 0 0 le_rfl))

/-- C4 counterexample: after six admissions (0 … 2.5 s) and seven
`record_rate_limit` hits (ceiling 30 → 5 RPM), the next `wait_if_needed`
call sleeps only until the single oldest entry ages out and then admits,
leaving 6 timestamps — more than `current_rpm = 5` — inside the trailing
60-second window of its admission time 60.1 s. -/
theorem wait_window_counterexample :
    (rlRun defaultRL c4Trace).current_rpm = 5 ∧
      windowCount (rlRun defaultRL c4Trace) (601/10) = 6 ∧
      (rlRun defaultRL c4Trace).request_times.getLast? = some (601/10) := by
  have hrun : rlRun defaultRL c4Trace =
      { config := {}
        request_times := [0, 1/2, 1, 3/2, 2, 5/2, 601/10]
        current_backoff := 60
        success_streak := 0
        current_rpm := 5 } := by
    norm_num [c4Trace, rlRun, rlStep, defaultRL, RateLimiter.mkInit, wait_if_needed,
      rpmWait, intervalWait, dequeAppend, record_rate_limit, pyInt, List.dropWhile,
      Int.tdiv]
  rw [hrun]
  refine ⟨rfl, ?_, by norm_num⟩
  norm_num [windowCount]

/-! ## Spec reconciler (`scripts/reconcile.py`) -/

/-- A reconciliation change entry (the dict built by the four fix
methods).  `old_value` is absent for `add`, `new_value` for `remove`. -/
structure Change where
  action : String
  path : String
  property : String
  constraint : String
  old_value : Option JValue := none
  new_value : Option JValue := none

/-- `ReconciliationResult` dataclass (the `original_path` field, a
filesystem path, is omitted; `validation_errors` holds placeholder
strings, the exception texts being external). -/
structure ReconciliationResult where
  filename : String
  modified : Bool
  changes : List Change := []
  fixed_spec : Option JValue := none
  validation_errors : List String := []

/-- `ReconciliationConfig` dataclass with its defaults. -/
structure ReconciliationConfig where
  priority : List String := ["existing", "discovery", "inferred"]
  fix_strategies : List (String × String) :=
    [("tighter_spec", "relax"), ("looser_spec", "tighten"),
     ("missing_constraint", "add"), ("extra_constraint", "remove")]

/-- `config.fix_strategies.get(key, default)`. -/
def stratGet (cfg : ReconciliationConfig) (key dflt : String) : String :=
  match cfg.fix_strategies.find? (fun p => p.1 = key) with
  | some p => p.2
  | none => dflt

/-- `SpecReconciler._get_fix_strategy`: map the discrepancy type to an
action name, each overridable via configuration; unmapped types yield
`"skip"`. -/
def get_fix_strategy (cfg : ReconciliationConfig) (d : Discrepancy) : String :=
  match d.discrepancy_type with
  | .SPEC_STRICTER => stratGet cfg "tighter_spec" "relax"
  | .SPEC_LOOSER => stratGet cfg "looser_spec" "tighten"
  | .MISSING_CONSTRAINT => stratGet cfg "missing_constraint" "add"
  | .EXTRA_CONSTRAINT => stratGet cfg "extra_constraint" "remove"
  | _ => "skip"

/-- `old_value or <default>` in the numeric fix branches.  Returns
`some none` when the stored value is falsy or absent (the default
applies), `some (some n)` for a truthy `int` `n`, and `none` for truthy
non-integers (on which the Python `min`/`max` would raise `TypeError`,
or produce `bool`-typed bounds — outside the modelled domain). -/
def pyTruthyInt : Option JValue → Option (Option ℤ)
  | none => some none
  | some .null => some none
  | some (.bool false) => some none
  | some (.str "") => some none
  | some (.arr []) => some none
  | some (.obj []) => some none
  | some (.int n) => some (if n = 0 then none else some n)
  | some (.num q) => if q = 0 then some none else none
  | some _ => none

/-- Python `min(o, q)` for an integer and a rational: the smaller
operand, keeping its type. -/
def pyMinIntRat (o : ℤ) (q : ℚ) : JValue :=
  if (o : ℚ) ≤ q then .int o else .num q

/-- Python `max(o, q)` for an integer and a rational. -/
def pyMaxIntRat (o : ℤ) (q : ℚ) : JValue :=
  if q ≤ (o : ℚ) then .int o else .num q

/-- First-occurrence deduplication (helper for the modelled
`list(set(a) | set(b))`). -/
def dedupJ : List JValue → List JValue
  | [] => []
  | x :: xs => x :: (dedupJ xs).filter (fun y => !jeq x y)

/-- `list(set(old) | set(api))`: some enumeration of the union of the
two sets.  CPython's iteration order is hash-dependent; it is modelled
as the first-occurrence deduplication of `old ++ api`.  Theorems state
only set-level facts about the result. -/
def pySetUnion (old api : List JValue) : List JValue :=
  dedupJ (old ++ api)

/-- `SpecReconciler._calculate_relaxed_value`.  Outer `none` models a
raising execution (type error on a truthy non-integer stored bound). -/
def calculate_relaxed_value (constraint_type : String) (old_value : Option JValue)
    (api_behavior : JValue) : Option JValue :=
  if constraint_type = "minLength" then
    match api_behavior with
    | .int n => (pyTruthyInt old_value).map (fun o => JValue.int (min (o.getD 0) n))
    | _ => some api_behavior
  else if constraint_type = "maxLength" then
    match api_behavior with
    | .int n => (pyTruthyInt old_value).map (fun o => JValue.int (max (o.getD 0) n))
    | _ => some api_behavior
  else if constraint_type = "minimum" then
    match api_behavior with
    | .int n => (pyTruthyInt old_value).map (fun o => JValue.int (min (o.getD 0) n))
    | .num q => (pyTruthyInt old_value).map (fun o => pyMinIntRat (o.getD 0) q)
    | _ => some api_behavior
  else if constraint_type = "maximum" then
    match api_behavior with
    | .int n => (pyTruthyInt old_value).map (fun o => JValue.int (max (o.getD 0) n))
    | .num q => (pyTruthyInt old_value).map (fun o => pyMaxIntRat (o.getD 0) q)
    | _ => some api_behavior
  else if constraint_type = "enum" then
    match api_behavior, old_value with
    | .arr api, some (.arr old) => some (.arr (pySetUnion old api))
    | _, _ => some api_behavior
  else
    some api_behavior

/-- `SpecReconciler._calculate_tightened_value`: the mirror image;
`old_value or float("inf")` / `float("-inf")` defaults make the observed
value win when the stored bound is falsy or absent. -/
def calculate_tightened_value (constraint_type : String) (old_value : Option JValue)
    (api_behavior : JValue) : Option JValue :=
  if constraint_type = "minLength" then
    match api_behavior with
    | .int n => (pyTruthyInt old_value).map (fun o => JValue.int (max (o.getD 0) n))
    | _ => some api_behavior
  else if constraint_type = "maxLength" then
    match api_behavior with
    | .int n => (pyTruthyInt old_value).map (fun o =>
        match o with
        | none => JValue.int n
        | some o' => JValue.int (min o' n))
    | _ => some api_behavior
  else if constraint_type = "minimum" then
    match api_behavior with
    | .int n => (pyTruthyInt old_value).map (fun o =>
        match o with
        | none => JValue.int n
        | some o' => JValue.int (max o' n))
    | .num q => (pyTruthyInt old_value).map (fun o =>
        match o with
        | none => JValue.num q
        | some o' => pyMaxIntRat o' q)
    | _ => some api_behavior
  else if constraint_type = "maximum" then
    match api_behavior with
    | .int n => (pyTruthyInt old_value).map (fun o =>
        match o with
        | none => JValue.int n
        | some o' => JValue.int (min o' n))
    | .num q => (pyTruthyInt old_value).map (fun o =>
        match o with
        | none => JValue.num q
        | some o' => pyMinIntRat o' q)
    | _ => some api_behavior
  else if constraint_type = "enum" then
    match api_behavior with
    | .arr api => some (.arr api)
    | _ => some api_behavior
  else
    some api_behavior

/-- Helper of `splitChar` over the character list. -/
def splitCharAux (sep : Char) : List Char → List (List Char)
  | [] => [[]]
  | c :: cs =>
      match splitCharAux sep cs with
      | [] => [[]]
      | hd :: tl => if c = sep then [] :: hd :: tl else (c :: hd) :: tl

/-- Python `str.split(sep)` for a single-character separator (used by
the source only with `"/"` and `":"`). -/
def splitChar (sep : Char) (s : String) : List String :=
  (splitCharAux sep s.data).map (fun cs => String.mk cs)

theorem splitCharAux_ne_nil (sep : Char) (cs : List Char) :
    splitCharAux sep cs ≠ [] := by
  cases cs with
  | nil => simp [splitCharAux]
  | cons c cs =>
    unfold splitCharAux
    match splitCharAux sep cs with
    | [] => simp
    | hd :: tl =>
      dsimp only
      split <;> simp

theorem splitChar_ne_nil (sep : Char) (s : String) : splitChar sep s ≠ [] := by
  unfold splitChar
  simp [splitCharAux_ne_nil]

/-- The walk of `SpecReconciler._find_schema` over path segments: at
each step prefer a same-named child, else a `properties.<segment>`
child; after the last segment the landing value must be a dict. -/
def findSchemaWalk : JValue → List String → Option JValue
  | current, [] => if current.isObj then some current else none
  | current, part :: rest =>
      match current with
      | .obj _ =>
          match current.get part with
          | some child => findSchemaWalk child rest
          | none =>
              match current.get "properties" with
              | some props =>
                  match props.get part with
                  | some child => findSchemaWalk child rest
                  | none => none
              | none => none
      | _ => none

/-- `d.get(k, {})`. -/
def pyDictGet (v : JValue) (k : String) : JValue :=
  (v.get k).getD (.obj [])

/-- `SpecReconciler._find_schema`: exact name match against
`components/schemas` first (returned without a dict check, as in the
source), else the segment walk. -/
def find_schema (spec : JValue) (property_path : String) : Option JValue :=
  let schemas := pyDictGet (pyDictGet spec "components") "schemas"
  if schemas.hasKey property_path then schemas.get property_path
  else findSchemaWalk schemas (splitChar '/' property_path)

/-- Functional counterpart of the in-place mutation of the node found by
`_find_schema`: the same walk, rebuilding the document with `f` applied
to the landing node. -/
def findSchemaWalkModify (f : JValue → JValue) : JValue → List String → Option JValue
  | current, [] => if current.isObj then some (f current) else none
  | current, part :: rest =>
      match current with
      | .obj _ =>
          match current.get part with
          | some child =>
              (findSchemaWalkModify f child rest).map (fun c => current.setKey part c)
          | none =>
              match current.get "properties" with
              | some props =>
                  match props.get part with
                  | some child =>
                      (findSchemaWalkModify f child rest).map
                        (fun c => current.setKey "properties" (props.setKey part c))
                  | none => none
              | none => none
      | _ => none

/-- Apply `f` to the node that `find_schema` resolves, rebuilding the
document (the Python code mutates that node in place). -/
def modify_schema (spec : JValue) (property_path : String) (f : JValue → JValue) :
    Option JValue :=
  match spec.get "components" with
  | none => none
  | some components =>
      match components.get "schemas" with
      | none => none
      | some schemas =>
          let wrap : JValue → JValue := fun schemas' =>
            spec.setKey "components" (components.setKey "schemas" schemas')
          if schemas.hasKey property_path then
            match schemas.get property_path with
            | some node => some (wrap (schemas.setKey property_path (f node)))
            | none => none
          else
            (findSchemaWalkModify f schemas (splitChar '/' property_path)).map wrap

/-- `SpecReconciler._relax_constraint`: resolve the schema node (empty
or missing ⇒ silent no-op), compute the relaxed value, and apply it only
when it differs from the stored one, recording a change entry.  `none`
means no change was applied (the document is returned unchanged by the
caller); a non-dict truthy node, on which Python would raise, is also
mapped to `none`. -/
def relax_constraint (spec : JValue) (d : Discrepancy) : Option (JValue × Change) :=
  match find_schema spec d.property_name with
  | none => none
  | some (.obj []) => none
  | some (.obj kvs) =>
      let schema := JValue.obj kvs
      let ct := d.constraint_type
      let old := schema.get ct
      match calculate_relaxed_value ct old d.api_behavior with
      | none => none
      | some nv =>
          if jeq nv .null then none
          else if jeq nv (old.getD .null) then none
          else
            (modify_schema spec d.property_name (fun node => node.setKey ct nv)).map
              (fun spec' =>
                (spec', { action := "relax", path := d.path, property := d.property_name,
                          constraint := ct, old_value := old, new_value := some nv }))
  | some _ => none

/-- `SpecReconciler._tighten_constraint`: mirror image of the relax fix. -/
def tighten_constraint (spec : JValue) (d : Discrepancy) : Option (JValue × Change) :=
  match find_schema spec d.property_name with
  | none => none
  | some (.obj []) => none
  | some (.obj kvs) =>
      let schema := JValue.obj kvs
      let ct := d.constraint_type
      let old := schema.get ct
      match calculate_tightened_value ct old d.api_behavior with
      | none => none
      | some nv =>
          if jeq nv .null then none
          else if jeq nv (old.getD .null) then none
          else
            (modify_schema spec d.property_name (fun node => node.setKey ct nv)).map
              (fun spec' =>
                (spec', { action := "tighten", path := d.path, property := d.property_name,
                          constraint := ct, old_value := old, new_value := some nv }))
  | some _ => none

/-- `SpecReconciler._add_constraint`: set the constraint to the observed
value only when the key is absent from the schema node. -/
def add_constraint (spec : JValue) (d : Discrepancy) : Option (JValue × Change) :=
  match find_schema spec d.property_name with
  | none => none
  | some (.obj []) => none
  | some (.obj kvs) =>
      let schema := JValue.obj kvs
      let ct := d.constraint_type
      if schema.hasKey ct then none
      else
        (modify_schema spec d.property_name (fun node => node.setKey ct d.api_behavior)).map
          (fun spec' =>
            (spec', { action := "add", path := d.path, property := d.property_name,
                      constraint := ct, new_value := some d.api_behavior }))
  | some _ => none

/-- Remove the first binding for `k` from an association list. -/
def removeKeyList : List (String × JValue) → String → List (String × JValue)
  | [], _ => []
  | (k', v') :: rest, k =>
      if k' = k then rest else (k', v') :: removeKeyList rest k

/-- `dict.pop(k)`: remove the first binding for `k`. -/
def JValue.removeKey : JValue → String → JValue
  | .obj kvs, k => .obj (removeKeyList kvs k)
  | v, _ => v

/-- `SpecReconciler._remove_constraint`: delete the constraint key when
present, recording the removed value. -/
def remove_constraint (spec : JValue) (d : Discrepancy) : Option (JValue × Change) :=
  match find_schema spec d.property_name with
  | none => none
  | some (.obj []) => none
  | some (.obj kvs) =>
      let schema := JValue.obj kvs
      let ct := d.constraint_type
      match schema.get ct with
      | none => none
      | some old =>
          (modify_schema spec d.property_name (fun node => node.removeKey ct)).map
            (fun spec' =>
              (spec', { action := "remove", path := d.path, property := d.property_name,
                        constraint := ct, old_value := some old }))
  | some _ => none

/-- `SpecReconciler._apply_fix`: dispatch on the configured strategy;
unmapped strategies (`"skip"` and anything unknown) do nothing. -/
def apply_fix (cfg : ReconciliationConfig) (spec : JValue) (d : Discrepancy) :
    Option (JValue × Change) :=
  let strategy := get_fix_strategy cfg d
  if strategy = "relax" then relax_constraint spec d
  else if strategy = "tighten" then tighten_constraint spec d
  else if strategy = "add" then add_constraint spec d
  else if strategy = "remove" then remove_constraint spec d
  else none

/-- The fix loop of `_reconcile_file`: thread the (deep-copied) document
through `_apply_fix` for each discrepancy, collecting change entries in
order. -/
def applyFixes (cfg : ReconciliationConfig) (spec : JValue) (ds : List Discrepancy) :
    JValue × List Change :=
  ds.foldl
    (fun acc d =>
      match apply_fix cfg acc.1 d with
      | some (spec', change) => (spec', acc.2 ++ [change])
      | none => acc)
    (spec, [])

/-- `SpecReconciler._reconcile_file`, idealised over an explicit
structural validator (the external `openapi_spec_validator.validate`):
`loaded = none` models a document that failed to load.  Patches are
applied to a copy; on post-patch validation failure the original is
emitted unchanged with `modified = false`. -/
def reconcile_file (cfg : ReconciliationConfig) (validate : JValue → Bool)
    (filename : String) (loaded : Option JValue) (ds : List Discrepancy) :
    ReconciliationResult :=
  match loaded with
  | none =>
      { filename := filename, modified := false, validation_errors := ["load error"] }
  | some original =>
      if ds.isEmpty then
        { filename := filename, modified := false, fixed_spec := some original }
      else
        let fixed := applyFixes cfg original ds
        if fixed.2.isEmpty then
          { filename := filename, modified := false, fixed_spec := some original }
        else if validate fixed.1 then
          { filename := filename, modified := true, changes := fixed.2,
            fixed_spec := some fixed.1 }
        else
          { filename := filename, modified := false, changes := fixed.2,
            fixed_spec := some original, validation_errors := ["validation error"] }

/-- Everything before the first `:` of a discrepancy path (the whole
path when it has no `:`). -/
def discFilename (d : Discrepancy) : String :=
  (splitChar ':' d.path).headD d.path

/-- `SpecReconciler._group_by_file` followed by
`grouped.get(filename, [])`: the discrepancies whose path names this
file, in order. -/
def groupForFile (ds : List Discrepancy) (filename : String) : List Discrepancy :=
  ds.filter (fun d => discFilename d = filename)

/-- `SpecReconciler.reconcile_all`, idealised over the directory
listing: one `(name, loaded document)` pair per spec file, in glob
order; every file yields exactly one result. -/
def reconcile_all (cfg : ReconciliationConfig) (validate : JValue → Bool)
    (files : List (String × Option JValue)) (ds : List Discrepancy) :
    List ReconciliationResult :=
  files.map (fun file => reconcile_file cfg validate file.1 file.2 (groupForFile ds file.1))

/-- `DiscrepancyType(tag)` from its string tag; `none` models the
`ValueError` raised on an unknown tag. -/
def discrepancyTypeOfString : String → Option DiscrepancyType
  | "spec_stricter" => some .SPEC_STRICTER
  | "spec_looser" => some .SPEC_LOOSER
  | "missing_constraint" => some .MISSING_CONSTRAINT
  | "extra_constraint" => some .EXTRA_CONSTRAINT
  | "constraint_mismatch" => some .CONSTRAINT_MISMATCH
  | "type_mismatch" => some .TYPE_MISMATCH
  | _ => none

/-- `d.get(k, dflt)` expecting a string (a non-string stored value would
land a non-`str` in a `str` field, outside the modelled domain). -/
def pyGetStr (v : JValue) (k dflt : String) : Option String :=
  match v.get k with
  | none => some dflt
  | some (.str s) => some s
  | some _ => none

/-- One record of `load_discrepancies`'s loop body. -/
def parseDiscrepancy (item : JValue) : Option Discrepancy := do
  let path ← pyGetStr item "path" ""
  let property_name ← pyGetStr item "property_name" ""
  let constraint_type ← pyGetStr item "constraint_type" ""
  let tag ← pyGetStr item "discrepancy_type" "constraint_mismatch"
  let dt ← discrepancyTypeOfString tag
  let test_values ←
    match item.get "test_values" with
    | none => some []
    | some (.arr l) => some l
    | some _ => none
  let recommendation ← pyGetStr item "recommendation" ""
  some { path := path, property_name := property_name, constraint_type := constraint_type,
         discrepancy_type := dt, spec_value := (item.get "spec_value").getD .null,
         api_behavior := (item.get "api_behavior").getD .null,
         test_values := test_values, recommendation := recommendation }

/-- `load_discrepancies`: a missing report file yields the empty list
(not an error); otherwise parse each record of the report's
`discrepancies` array (`none` models a raising parse). -/
def load_discrepancies (file_exists : Bool) (report : JValue) :
    Option (List Discrepancy) :=
  if file_exists = false then some []
  else
    match report.get "discrepancies" with
    | none => some []
    | some (.arr items) => items.mapM parseDiscrepancy
    | some _ => none

/-- C2: for every input document and discrepancy list, if the patched
document fails the structural validator then the emitted result has
`modified = false` and `fixed_spec` equal to the original document
itself (patches touch only the copy, so the original is emitted
unchanged); and unconditionally the emitted document is either the
untouched original or the fully patched copy — never a partial commit. -/
theorem reconcile_file_rollback (cfg : ReconciliationConfig) (validate : JValue → Bool)
    (filename : String) (original : JValue) (ds : List Discrepancy) :
    (validate (applyFixes cfg original ds).1 = false →
      (reconcile_file cfg validate filename (some original) ds).modified = false ∧
      (reconcile_file cfg validate filename (some original) ds).fixed_spec =
        some original) ∧
    ((reconcile_file cfg validate filename (some original) ds).fixed_spec =
        some original ∨
      (reconcile_file cfg validate filename (some original) ds).fixed_spec =
        some (applyFixes cfg original ds).1) := by
  unfold reconcile_file
  by_cases hempty : ds.isEmpty
  · simp [hempty]
  · simp only [hempty, if_false, Bool.false_eq_true]
    by_cases hch : (applyFixes cfg original ds).2.isEmpty
    · simp [hch]
    · simp only [hch, if_false, Bool.false_eq_true]
      by_cases hval : validate (applyFixes cfg original ds).1
      · simp [hval]
      · simp [hval]

/-- Sample document and discrepancy for closed witness instances. -/
def sampleSpec : JValue :=
  .obj [("components", .obj [("schemas", .obj [("Foo", .obj [("maxLength", .int 50)])])])]

/-- Sample `maxLength` discrepancy observed at 80 against a declared 50. -/
def sampleDisc : Discrepancy :=
  { path := "a.json:Foo", property_name := "Foo", constraint_type := "maxLength",
    discrepancy_type := .SPEC_STRICTER, spec_value := .int 50, api_behavior := .int 80 }

/-- Closed instance of `reconcile_file_rollback`: a one-discrepancy file
with an always-failing validator rolls back to the original. -/
theorem reconcile_file_rollback_witness :
    (reconcile_file {} (fun _ => false) "a.json" (some sampleSpec) [sampleDisc]).modified =
        false ∧
      (reconcile_file {} (fun _ => false) "a.json" (some sampleSpec)
          [sampleDisc]).fixed_spec = some sampleSpec :=
  (reconcile_file_rollback {} (fun _ => false) "a.json" sampleSpec [sampleDisc]).1 rfl

theorem find?_setKeyList_self (kvs : List (String × JValue)) (k : String) (x : JValue) :
    (JValue.setKeyList kvs k x).find? (fun p => p.1 = k) = some (k, x) := by
  induction kvs with
  | nil => simp [JValue.setKeyList]
  | cons p rest ih =>
    obtain ⟨k', v'⟩ := p
    by_cases h : k' = k
    · subst h
      simp [JValue.setKeyList]
    · simp [JValue.setKeyList, h, List.find?, ih]

theorem find?_setKeyList_other (kvs : List (String × JValue)) (k : String) (x : JValue)
    (k' : String) (h : k' ≠ k) :
    (JValue.setKeyList kvs k x).find? (fun p => p.1 = k') =
      kvs.find? (fun p => p.1 = k') := by
  induction kvs with
  | nil => simp [JValue.setKeyList, List.find?, Ne.symm h]
  | cons p rest ih =>
    obtain ⟨k'', v''⟩ := p
    by_cases hk : k'' = k
    · subst hk
      simp [JValue.setKeyList, List.find?, Ne.symm h]
    · simp only [JValue.setKeyList, if_neg hk]
      by_cases hk' : k'' = k'
      · simp [List.find?, hk']
      · simp [List.find?, hk', ih]

theorem get_setKey_self (kvs : List (String × JValue)) (k : String) (x : JValue) :
    ((JValue.obj kvs).setKey k x).get k = some x := by
  simp [JValue.setKey, JValue.get, find?_setKeyList_self]

theorem get_setKey_other (kvs : List (String × JValue)) (k : String) (x : JValue)
    (k' : String) (h : k' ≠ k) :
    ((JValue.obj kvs).setKey k x).get k' = (JValue.obj kvs).get k' := by
  simp [JValue.setKey, JValue.get, find?_setKeyList_other kvs k x k' h]

theorem isObj_setKey (v : JValue) (k : String) (x : JValue) :
    (v.setKey k x).isObj = v.isObj := by
  cases v <;> rfl

theorem hasKey_setKey (kvs : List (String × JValue)) (k : String) (x : JValue)
    (k' : String) :
    ((JValue.obj kvs).setKey k x).hasKey k' =
      (decide (k' = k) || (JValue.obj kvs).hasKey k') := by
  by_cases h : k' = k
  · subst h
    simp [JValue.hasKey, get_setKey_self]
  · simp [JValue.hasKey, get_setKey_other kvs k x k' h, h]

theorem findSchemaWalk_cons_obj (kvs : List (String × JValue)) (part : String)
    (rest : List String) :
    findSchemaWalk (JValue.obj kvs) (part :: rest) =
      match (JValue.obj kvs).get part with
      | some child => findSchemaWalk child rest
      | none =>
          match (JValue.obj kvs).get "properties" with
          | some props =>
              match props.get part with
              | some child => findSchemaWalk child rest
              | none => none
          | none => none := rfl

theorem findSchemaWalkModify_cons_obj (f : JValue → JValue)
    (kvs : List (String × JValue)) (part : String) (rest : List String) :
    findSchemaWalkModify f (JValue.obj kvs) (part :: rest) =
      match (JValue.obj kvs).get part with
      | some child =>
          (findSchemaWalkModify f child rest).map
            (fun c => (JValue.obj kvs).setKey part c)
      | none =>
          match (JValue.obj kvs).get "properties" with
          | some props =>
              match props.get part with
              | some child =>
                  (findSchemaWalkModify f child rest).map
                    (fun c => (JValue.obj kvs).setKey "properties" (props.setKey part c))
              | none => none
          | none => none := rfl

theorem walkModify_coherent (f : JValue → JValue)
    (hf : ∀ v : JValue, (f v).isObj = v.isObj) :
    ∀ (parts : List String) (current node : JValue),
      findSchemaWalk current parts = some node →
      ∃ current', findSchemaWalkModify f current parts = some current' ∧
        findSchemaWalk current' parts = some (f node)
  | [], current, node => by
    intro h
    unfold findSchemaWalk at h
    split at h
    · rename_i hobj
      have hcn : current = node := by simpa using h
      subst hcn
      refine ⟨f current, ?_, ?_⟩
      · unfold findSchemaWalkModify
        rw [if_pos hobj]
      · unfold findSchemaWalk
        rw [if_pos (by rw [hf]; exact hobj)]
    · exact absurd h (by simp)
  | part :: rest, current, node => by
    intro h
    cases current with
    | obj kvs =>
      rw [findSchemaWalk_cons_obj] at h
      rcases hget : (JValue.obj kvs).get part with - | child
      · rw [hget] at h
        dsimp only at h
        rcases hprops : (JValue.obj kvs).get "properties" with - | props
        · rw [hprops] at h
          exact absurd h (by simp)
        · rw [hprops] at h
          dsimp only at h
          rcases hgetp : props.get part with - | child
          · rw [hgetp] at h
            exact absurd h (by simp)
          · rw [hgetp] at h
            dsimp only at h
            obtain ⟨child', hmod, hfind⟩ := walkModify_coherent f hf rest child node h
            have hpartne : part ≠ "properties" := by
              intro hcontra
              rw [hcontra, hprops] at hget
              exact Option.noConfusion hget
            have hpobj : ∃ pkvs, props = JValue.obj pkvs := by
              cases props with
              | obj pkvs => exact ⟨pkvs, rfl⟩
              | null => exact absurd hgetp (by simp [JValue.get])
              | bool b => exact absurd hgetp (by simp [JValue.get])
              | int n => exact absurd hgetp (by simp [JValue.get])
              | num q => exact absurd hgetp (by simp [JValue.get])
              | str s => exact absurd hgetp (by simp [JValue.get])
              | arr l => exact absurd hgetp (by simp [JValue.get])
            obtain ⟨pkvs, rfl⟩ := hpobj
            refine ⟨(JValue.obj kvs).setKey "properties"
              ((JValue.obj pkvs).setKey part child'), ?_, ?_⟩
            · rw [findSchemaWalkModify_cons_obj, hget]
              dsimp only
              rw [hprops]
              dsimp only
              rw [hgetp]
              dsimp only
              rw [hmod]
              rfl
            · obtain ⟨pkvs', hpk⟩ : ∃ pkvs',
                  (JValue.obj pkvs).setKey part child' = JValue.obj pkvs' := ⟨_, rfl⟩
              obtain ⟨kvs', hk⟩ : ∃ kvs', (JValue.obj kvs).setKey "properties"
                  (JValue.obj pkvs') = JValue.obj kvs' := ⟨_, rfl⟩
              rw [hpk, hk, findSchemaWalk_cons_obj]
              rw [show (JValue.obj kvs').get part = none from by
                rw [← hk, get_setKey_other kvs "properties" _ part hpartne]; exact hget]
              dsimp only
              rw [show (JValue.obj kvs').get "properties" = some (JValue.obj pkvs') from by
                rw [← hk]; exact get_setKey_self kvs "properties" _]
              dsimp only
              rw [show (JValue.obj pkvs').get part = some child' from by
                rw [← hpk]; exact get_setKey_self pkvs part child']
              exact hfind
      · rw [hget] at h
        dsimp only at h
        obtain ⟨child', hmod, hfind⟩ := walkModify_coherent f hf rest child node h
        refine ⟨(JValue.obj kvs).setKey part child', ?_, ?_⟩
        · rw [findSchemaWalkModify_cons_obj, hget]
          dsimp only
          rw [hmod]
          rfl
        · obtain ⟨kvs', hk⟩ : ∃ kvs',
              (JValue.obj kvs).setKey part child' = JValue.obj kvs' := ⟨_, rfl⟩
          rw [hk, findSchemaWalk_cons_obj]
          rw [show (JValue.obj kvs').get part = some child' from by
            rw [← hk]; exact get_setKey_self kvs part child']
          exact hfind
    | null => exact absurd h (by simp [findSchemaWalk])
    | bool b => exact absurd h (by simp [findSchemaWalk])
    | int n => exact absurd h (by simp [findSchemaWalk])
    | num q => exact absurd h (by simp [findSchemaWalk])
    | str s => exact absurd h (by simp [findSchemaWalk])
    | arr l => exact absurd h (by simp [findSchemaWalk])

theorem walkModify_hasKey (f : JValue → JValue) (part : String) (rest : List String)
    (current current' : JValue)
    (h : findSchemaWalkModify f current (part :: rest) = some current') (k : String) :
    current'.hasKey k = current.hasKey k := by
  cases current with
  | obj kvs =>
    rw [findSchemaWalkModify_cons_obj] at h
    rcases hget : (JValue.obj kvs).get part with - | child
    · rw [hget] at h
      dsimp only at h
      rcases hprops : (JValue.obj kvs).get "properties" with - | props
      · rw [hprops] at h
        exact absurd h (by simp)
      · rw [hprops] at h
        dsimp only at h
        rcases hgetp : props.get part with - | child
        · rw [hgetp] at h
          exact absurd h (by simp)
        · rw [hgetp] at h
          dsimp only at h
          rcases hmod : findSchemaWalkModify f child rest with - | child'
          · rw [hmod] at h
            exact absurd h (by simp)
          · rw [hmod] at h
            simp only [Option.map_some', Option.some.injEq] at h
            subst h
            rw [hasKey_setKey]
            by_cases hk : k = "properties"
            · subst hk
              simp [JValue.hasKey, hprops]
            · simp [hk]
    · rw [hget] at h
      dsimp only at h
      rcases hmod : findSchemaWalkModify f child rest with - | child'
      · rw [hmod] at h
        exact absurd h (by simp)
      · rw [hmod] at h
        simp only [Option.map_some', Option.some.injEq] at h
        subst h
        rw [hasKey_setKey]
        by_cases hk : k = part
        · subst hk
          simp [JValue.hasKey, hget]
        · simp [hk]
  | null => exact absurd h (by simp [findSchemaWalkModify])
  | bool b => exact absurd h (by simp [findSchemaWalkModify])
  | int n => exact absurd h (by simp [findSchemaWalkModify])
  | num q => exact absurd h (by simp [findSchemaWalkModify])
  | str sv => exact absurd h (by simp [findSchemaWalkModify])
  | arr l => exact absurd h (by simp [findSchemaWalkModify])

theorem find_modify_coherent (f : JValue → JValue)
    (hf : ∀ v : JValue, (f v).isObj = v.isObj)
    (spec : JValue) (path : String) (node : JValue)
    (h : find_schema spec path = some node) :
    ∃ spec', modify_schema spec path f = some spec' ∧
      find_schema spec' path = some (f node) := by
  have hwalk_empty : ∀ parts : List String, parts ≠ [] →
      findSchemaWalk (JValue.obj []) parts = none := by
    intro parts hne
    cases parts with
    | nil => exact absurd rfl hne
    | cons part rest => rfl
  unfold find_schema at h
  rcases hcomp : spec.get "components" with - | comps
  · exfalso
    rw [show pyDictGet spec "components" = JValue.obj [] from by
      simp [pyDictGet, hcomp]] at h
    rw [show pyDictGet (JValue.obj []) "schemas" = JValue.obj [] from rfl] at h
    rw [if_neg (by simp [JValue.hasKey, JValue.get])] at h
    rw [hwalk_empty _ (splitChar_ne_nil '/' path)] at h
    exact Option.noConfusion h
  · rw [show pyDictGet spec "components" = comps from by simp [pyDictGet, hcomp]] at h
    rcases hschemas : comps.get "schemas" with - | schemas
    · exfalso
      rw [show pyDictGet comps "schemas" = JValue.obj [] from by
        simp [pyDictGet, hschemas]] at h
      rw [if_neg (by simp [JValue.hasKey, JValue.get])] at h
      rw [hwalk_empty _ (splitChar_ne_nil '/' path)] at h
      exact Option.noConfusion h
    · rw [show pyDictGet comps "schemas" = schemas from by
        simp [pyDictGet, hschemas]] at h
      obtain ⟨skvs, rfl⟩ : ∃ skvs, spec = JValue.obj skvs := by
        cases spec with
        | obj skvs => exact ⟨skvs, rfl⟩
        | null => exact absurd hcomp (by simp [JValue.get])
        | bool b => exact absurd hcomp (by simp [JValue.get])
        | int n => exact absurd hcomp (by simp [JValue.get])
        | num q => exact absurd hcomp (by simp [JValue.get])
        | str sv => exact absurd hcomp (by simp [JValue.get])
        | arr l => exact absurd hcomp (by simp [JValue.get])
      obtain ⟨ckvs, rfl⟩ : ∃ ckvs, comps = JValue.obj ckvs := by
        cases comps with
        | obj ckvs => exact ⟨ckvs, rfl⟩
        | null => exact absurd hschemas (by simp [JValue.get])
        | bool b => exact absurd hschemas (by simp [JValue.get])
        | int n => exact absurd hschemas (by simp [JValue.get])
        | num q => exact absurd hschemas (by simp [JValue.get])
        | str sv => exact absurd hschemas (by simp [JValue.get])
        | arr l => exact absurd hschemas (by simp [JValue.get])
      dsimp only at h
      unfold modify_schema
      rw [hcomp]
      dsimp only
      rw [hschemas]
      dsimp only
      by_cases hkey : schemas.hasKey path
      · rw [if_pos hkey] at h
        rw [if_pos hkey]
        obtain ⟨sskvs, rfl⟩ : ∃ sskvs, schemas = JValue.obj sskvs := by
          cases schemas with
          | obj sskvs => exact ⟨sskvs, rfl⟩
          | null => exact absurd hkey (by simp [JValue.hasKey, JValue.get])
          | bool b => exact absurd hkey (by simp [JValue.hasKey, JValue.get])
          | int n => exact absurd hkey (by simp [JValue.hasKey, JValue.get])
          | num q => exact absurd hkey (by simp [JValue.hasKey, JValue.get])
          | str sv => exact absurd hkey (by simp [JValue.hasKey, JValue.get])
          | arr l => exact absurd hkey (by simp [JValue.hasKey, JValue.get])
        rw [h]
        dsimp only
        refine ⟨_, rfl, ?_⟩
        unfold find_schema
        rw [show pyDictGet ((JValue.obj skvs).setKey "components"
            ((JValue.obj ckvs).setKey "schemas"
              ((JValue.obj sskvs).setKey path (f node)))) "components" =
          (JValue.obj ckvs).setKey "schemas"
            ((JValue.obj sskvs).setKey path (f node)) from by
          simp [pyDictGet, get_setKey_self]]
        rw [show pyDictGet ((JValue.obj ckvs).setKey "schemas"
            ((JValue.obj sskvs).setKey path (f node))) "schemas" =
          (JValue.obj sskvs).setKey path (f node) from by
          simp [pyDictGet, get_setKey_self]]
        rw [if_pos (by rw [hasKey_setKey]; simp)]
        exact get_setKey_self sskvs path (f node)
      · rw [if_neg hkey] at h
        rw [if_neg hkey]
        obtain ⟨schemas', hmod, hfind⟩ :=
          walkModify_coherent f hf (splitChar '/' path) schemas node h
        rw [hmod]
        refine ⟨_, rfl, ?_⟩
        unfold find_schema
        rw [show pyDictGet ((JValue.obj skvs).setKey "components"
            ((JValue.obj ckvs).setKey "schemas" schemas')) "components" =
          (JValue.obj ckvs).setKey "schemas" schemas' from by
          simp [pyDictGet, get_setKey_self]]
        rw [show pyDictGet ((JValue.obj ckvs).setKey "schemas" schemas') "schemas" =
          schemas' from by simp [pyDictGet, get_setKey_self]]
        have hkey' : schemas'.hasKey path = false := by
          rcases hparts : splitChar '/' path with - | ⟨part, rest⟩
          · exact absurd hparts (splitChar_ne_nil '/' path)
          · rw [hparts] at hmod
            rw [walkModify_hasKey f part rest schemas schemas' hmod path]
            simpa using hkey
        rw [if_neg (by simp [hkey'])]
        exact hfind

/-- C6: for every document with a resolvable schema node carrying
`maxLength = 50` and a single `maxLength` discrepancy of type
`SPEC_STRICTER` observed at 80, reconciling the file under the default
fix strategies (with the structural validator accepting the patched
document) yields `modified = true`, exactly one change entry
`{action := "relax", old_value := 50, new_value := 80}`, and a patched
document whose resolved node carries `maxLength = 80`. -/
theorem reconcile_maxLength_relax (validate : JValue → Bool) (filename : String)
    (spec : JValue) (d : Discrepancy) (node : JValue)
    (hct : d.constraint_type = "maxLength")
    (hdt : d.discrepancy_type = .SPEC_STRICTER)
    (hapi : d.api_behavior = .int 80)
    (hfind : find_schema spec d.property_name = some node)
    (hml : node.get "maxLength" = some (.int 50))
    (hval : validate (applyFixes {} spec [d]).1 = true) :
    ∃ spec',
      reconcile_file {} validate filename (some spec) [d] =
        { filename := filename, modified := true,
          changes := [{ action := "relax", path := d.path, property := d.property_name,
                        constraint := "maxLength", old_value := some (.int 50),
                        new_value := some (.int 80) }],
          fixed_spec := some spec' } ∧
      ∃ node', find_schema spec' d.property_name = some node' ∧
        node'.get "maxLength" = some (.int 80) := by
  obtain ⟨kvs, rfl⟩ : ∃ kvs, node = JValue.obj kvs := by
    cases node with
    | obj kvs => exact ⟨kvs, rfl⟩
    | null => exact absurd hml (by simp [JValue.get])
    | bool b => exact absurd hml (by simp [JValue.get])
    | int n => exact absurd hml (by simp [JValue.get])
    | num q => exact absurd hml (by simp [JValue.get])
    | str sv => exact absurd hml (by simp [JValue.get])
    | arr l => exact absurd hml (by simp [JValue.get])
  obtain ⟨hd, tl, rfl⟩ : ∃ hd tl, kvs = hd :: tl := by
    cases kvs with
    | nil => exact absurd hml (by simp [JValue.get])
    | cons hd tl => exact ⟨hd, tl, rfl⟩
  obtain ⟨spec', hmod, hfind'⟩ :=
    find_modify_coherent (fun v => v.setKey "maxLength" (.int 80))
      (fun v => isObj_setKey v "maxLength" (.int 80)) spec d.property_name
      (JValue.obj (hd :: tl)) hfind
  have hcalc : calculate_relaxed_value "maxLength" (some (JValue.int 50)) (.int 80) =
      some (.int 80) := rfl
  have hrelax : relax_constraint spec d =
      some (spec', { action := "relax", path := d.path, property := d.property_name,
                     constraint := "maxLength", old_value := some (.int 50),
                     new_value := some (.int 80) }) := by
    unfold relax_constraint
    rw [hfind]
    dsimp only
    rw [hct, hml, hapi, hcalc]
    dsimp only
    simp only [show jeq (.int 80) .null = false from rfl,
      show jeq (.int 80) ((some (JValue.int 50)).getD .null) = false from by simp [jeq],
      Bool.false_eq_true, if_false]
    rw [hmod]
    rfl
  have hstrat : get_fix_strategy {} d = "relax" := by
    unfold get_fix_strategy
    rw [hdt]
    rfl
  have happly : apply_fix {} spec d =
      some (spec', { action := "relax", path := d.path, property := d.property_name,
                     constraint := "maxLength", old_value := some (.int 50),
                     new_value := some (.int 80) }) := by
    unfold apply_fix
    rw [hstrat]
    simpa using hrelax
  have hfixes : applyFixes {} spec [d] =
      (spec', [{ action := "relax", path := d.path, property := d.property_name,
                 constraint := "maxLength", old_value := some (.int 50),
                 new_value := some (.int 80) }]) := by
    unfold applyFixes
    simp [List.foldl, happly]
  refine ⟨spec', ?_, (JValue.obj (hd :: tl)).setKey "maxLength" (.int 80), hfind', ?_⟩
  · unfold reconcile_file
    rw [show ([d] : List Discrepancy).isEmpty = false from rfl]
    dsimp only
    rw [hfixes] at hval ⊢
    dsimp only
    rw [hval]
    rfl
  · exact get_setKey_self (hd :: tl) "maxLength" (.int 80)

/-- Closed instance of `reconcile_maxLength_relax` on `sampleSpec` and
`sampleDisc` with an always-accepting validator. -/
theorem reconcile_maxLength_relax_witness :
    ∃ spec',
      reconcile_file {} (fun _ => true) "a.json" (some sampleSpec) [sampleDisc] =
        { filename := "a.json", modified := true,
          changes := [{ action := "relax", path := sampleDisc.path,
                        property := sampleDisc.property_name,
                        constraint := "maxLength", old_value := some (.int 50),
                        new_value := some (.int 80) }],
          fixed_spec := some spec' } ∧
      ∃ node', find_schema spec' sampleDisc.property_name = some node' ∧
        node'.get "maxLength" = some (.int 80) :=
  reconcile_maxLength_relax (fun _ => true) "a.json" sampleSpec sampleDisc
    (JValue.obj [("maxLength", JValue.int 50)]) rfl rfl rfl rfl rfl rfl

/-- C7: the relax action computes `min(old, observed)` for `minLength`
(10 relaxed against 5 gives 5); re-applying relax with the same observed
value is a no-op — no change entry and the document returned unchanged;
and relaxing an enum unions the declared and observed value sets
(`{a,b}` against `{a,c}` gives `{a,b,c}` as a set). -/
theorem relax_idempotent_and_enum_union :
    (calculate_relaxed_value "minLength" (some (.int 10)) (.int 5) = some (.int 5)) ∧
    (∀ (spec : JValue) (d : Discrepancy) (node : JValue),
        d.constraint_type = "minLength" →
        d.discrepancy_type = .SPEC_STRICTER →
        d.api_behavior = .int 5 →
        find_schema spec d.property_name = some node →
        node.get "minLength" = some (.int 5) →
        relax_constraint spec d = none ∧ applyFixes {} spec [d] = (spec, [])) ∧
    (∃ u, calculate_relaxed_value "enum" (some (.arr [.str "a", .str "b"]))
        (.arr [.str "a", .str "c"]) = some (.arr u) ∧
      ∀ v, v ∈ u ↔ (v = .str "a" ∨ v = .str "b" ∨ v = .str "c")) := by
  refine ⟨rfl, ?_, ?_⟩
  · intro spec d node hct hdt hapi hfind hml
    obtain ⟨kvs, rfl⟩ : ∃ kvs, node = JValue.obj kvs := by
      cases node with
      | obj kvs => exact ⟨kvs, rfl⟩
      | null => exact absurd hml (by simp [JValue.get])
      | bool b => exact absurd hml (by simp [JValue.get])
      | int n => exact absurd hml (by simp [JValue.get])
      | num q => exact absurd hml (by simp [JValue.get])
      | str sv => exact absurd hml (by simp [JValue.get])
      | arr l => exact absurd hml (by simp [JValue.get])
    obtain ⟨hd, tl, rfl⟩ : ∃ hd tl, kvs = hd :: tl := by
      cases kvs with
      | nil => exact absurd hml (by simp [JValue.get])
      | cons hd tl => exact ⟨hd, tl, rfl⟩
    have hnone : relax_constraint spec d = none := by
      unfold relax_constraint
      rw [hfind]
      dsimp only
      rw [hct, hml, hapi]
      rw [show calculate_relaxed_value "minLength" (some (JValue.int 5)) (.int 5) =
        some (.int 5) from rfl]
      dsimp only
      simp only [show jeq (.int 5) .null = false from rfl, Bool.false_eq_true, if_false]
      rw [if_pos (by simp [jeq])]
    refine ⟨hnone, ?_⟩
    unfold applyFixes
    have happly : apply_fix {} spec d = none := by
      unfold apply_fix
      rw [show get_fix_strategy {} d = "relax" from by
        unfold get_fix_strategy; rw [hdt]; rfl]
      simpa using hnone
    simp [List.foldl, happly]
  · refine ⟨[.str "a", .str "b", .str "c"], rfl, ?_⟩
    intro v
    simp

/-- Closed instance of the no-further-change part of
`relax_idempotent_and_enum_union` on a concrete document whose node
already carries `minLength = 5`. -/
theorem relax_idempotent_witness :
    relax_constraint
        (JValue.obj [("components", JValue.obj [("schemas",
          JValue.obj [("Bar", JValue.obj [("minLength", JValue.int 5)])])])])
        { path := "a.json:Bar", property_name := "Bar", constraint_type := "minLength",
          discrepancy_type := .SPEC_STRICTER, spec_value := .int 10,
          api_behavior := .int 5 } = none ∧
      applyFixes {}
        (JValue.obj [("components", JValue.obj [("schemas",
          JValue.obj [("Bar", JValue.obj [("minLength", JValue.int 5)])])])])
        [{ path := "a.json:Bar", property_name := "Bar", constraint_type := "minLength",
           discrepancy_type := .SPEC_STRICTER, spec_value := .int 10,
           api_behavior := .int 5 }] =
        (JValue.obj [("components", JValue.obj [("schemas",
          JValue.obj [("Bar", JValue.obj [("minLength", JValue.int 5)])])])], []) :=
  relax_idempotent_and_enum_union.2.1
    (JValue.obj [("components", JValue.obj [("schemas",
      JValue.obj [("Bar", JValue.obj [("minLength", JValue.int 5)])])])])
    { path := "a.json:Bar", property_name := "Bar", constraint_type := "minLength",
      discrepancy_type := .SPEC_STRICTER, spec_value := .int 10, api_behavior := .int 5 }
    (JValue.obj [("minLength", JValue.int 5)]) rfl rfl rfl rfl rfl

/-- C9: a missing discrepancy report yields the empty list rather than
an error; with an empty discrepancy list a loaded file is pass-through
(`modified = false`, the untouched original emitted, no changes); and
`reconcile_all` yields exactly one result per input file — moreover with
no discrepancies at all, no file is ever marked modified. -/
theorem reconcile_empty_input (report : JValue) (cfg : ReconciliationConfig)
    (validate : JValue → Bool) (files : List (String × Option JValue))
    (ds : List Discrepancy) (filename : String) (original : JValue) :
    load_discrepancies false report = some [] ∧
    reconcile_file cfg validate filename (some original) [] =
      { filename := filename, modified := false, changes := [],
        fixed_spec := some original, validation_errors := [] } ∧
    (reconcile_all cfg validate files ds).length = files.length ∧
    (∀ r ∈ reconcile_all cfg validate files [], r.modified = false) := by
  refine ⟨rfl, rfl, by simp [reconcile_all], ?_⟩
  intro r hr
  unfold reconcile_all at hr
  obtain ⟨file, -, rfl⟩ := List.mem_map.mp hr
  show (reconcile_file cfg validate file.1 file.2 (groupForFile [] file.1)).modified = false
  rcases file with ⟨name, - | original'⟩
  · rfl
  · rfl

/-- Closed instance of `reconcile_empty_input`. -/
theorem reconcile_empty_input_witness :
    load_discrepancies false (JValue.obj []) = some [] ∧
    reconcile_file {} (fun _ => true) "a.json" (some sampleSpec) [] =
      { filename := "a.json", modified := false, changes := [],
        fixed_spec := some sampleSpec, validation_errors := [] } ∧
    (reconcile_all {} (fun _ => true) [("a.json", some sampleSpec), ("b.json", none)]
        [sampleDisc]).length =
      ([("a.json", some sampleSpec), ("b.json", none)] :
        List (String × Option JValue)).length ∧
    (∀ r ∈ reconcile_all {} (fun _ => true)
        [("a.json", some sampleSpec), ("b.json", none)] [], r.modified = false) :=
  reconcile_empty_input (JValue.obj []) {} (fun _ => true)
    [("a.json", some sampleSpec), ("b.json", none)] [sampleDisc] "a.json" sampleSpec

/-- Closed instance of `compare_results_classification` at a concrete
test case and verdict. -/
theorem compare_results_classification_witness :
    (compare_results ⟨"maxLength_above_50", .str "aa", false, ""⟩ true = none ↔
      (⟨"maxLength_above_50", .str "aa", false, ""⟩ :
        ValidationTestCase).expected_valid = true) ∧
    ((⟨"maxLength_above_50", .str "aa", false, ""⟩ :
        ValidationTestCase).expected_valid = true → true = false →
      ∃ d, compare_results ⟨"maxLength_above_50", .str "aa", false, ""⟩ true = some d ∧
        d.discrepancy_type = DiscrepancyType.SPEC_LOOSER) ∧
    ((⟨"maxLength_above_50", .str "aa", false, ""⟩ :
        ValidationTestCase).expected_valid = false → true = true →
      ∃ d, compare_results ⟨"maxLength_above_50", .str "aa", false, ""⟩ true = some d ∧
        d.discrepancy_type = DiscrepancyType.SPEC_STRICTER) :=
  compare_results_classification ⟨"maxLength_above_50", .str "aa", false, ""⟩ true

/-! ### Test-case generators (`ConstraintValidator._generate_*`)

Numeric constraint inputs are idealised as exact rationals and test-case
names render numbers with Lean's `toString`, which differs from CPython
string formatting only after the first underscore of a name; no verified
property depends on a name's suffix or on a `description`. -/

/-- `"a" * n` (empty for non-positive `n`). -/
def strRep (n : ℤ) : String := String.mk (List.replicate n.toNat 'a')

/-- `["item"] * n`. -/
def itemRep (n : ℤ) : List JValue := List.replicate n.toNat (.str "item")

/-- `str(v)` as interpolated into f-strings; only strings and numbers
occur in the repository's data, the rest is a rough rendering. -/
def pyStr : JValue → String
  | .str s => s
  | .int n => toString n
  | .num q => toString q
  | .bool true => "True"
  | .bool false => "False"
  | .null => "None"
  | .arr _ => "[...]"
  | .obj _ => "\x7b...\x7d"

/-- The external `re` module: `compile` yields `none` on an invalid
pattern (`re.error`), otherwise the truthiness of `regex.match(sample)`
for each sample. -/
structure RegexEngine where
  compile : String → Option (String → Bool)

/-- Membership with Python equality (`in`). -/
def memJ (x : JValue) : List JValue → Bool
  | [] => false
  | y :: ys => jeq x y || memJ x ys

/-- Python `needle in haystack` on strings (substring test). -/
def strIn (needle hay : String) : Bool :=
  (List.range (hay.data.length + 1)).any
    (fun i => (hay.data.drop i).take needle.data.length == needle.data)

def generate_min_length_tests (min_length : ℤ) : List ValidationTestCase :=
  [{ name := "minLength_exact_" ++ toString min_length,
     value := .str (strRep min_length), expected_valid := true,
     description := "String of exactly " ++ toString min_length ++ " characters" }] ++
  (if 0 < min_length then
    [{ name := "minLength_below_" ++ toString min_length,
       value := .str (strRep (min_length - 1)), expected_valid := false,
       description := "String of " ++ toString (min_length - 1) ++
         " characters (below minimum)" },
     { name := "minLength_empty", value := .str "", expected_valid := false,
       description := "Empty string" }]
   else []) ++
  [{ name := "minLength_above_" ++ toString min_length,
     value := .str (strRep (min_length + 5)), expected_valid := true,
     description := "String of " ++ toString (min_length + 5) ++
       " characters (above minimum)" }]

def generate_max_length_tests (max_length : ℤ) : List ValidationTestCase :=
  [{ name := "maxLength_exact_" ++ toString max_length,
     value := .str (strRep max_length), expected_valid := true,
     description := "String of exactly " ++ toString max_length ++ " characters" },
   { name := "maxLength_above_" ++ toString max_length,
     value := .str (strRep (max_length + 1)), expected_valid := false,
     description := "String of " ++ toString (max_length + 1) ++
       " characters (above maximum)" },
   { name := "maxLength_overflow_" ++ toString max_length,
     value := .str (strRep (max_length + 100)), expected_valid := false,
     description := "String of " ++ toString (max_length + 100) ++
       " characters (overflow)" },
   { name := "maxLength_empty", value := .str "", expected_valid := true,
     description := "Empty string" }]

/-- `_generate_matching_strings`: heuristic samples for common naming
patterns. -/
def generate_matching_strings (pattern : String) : List String :=
  if pattern = "^[a-z][a-z0-9-]*$" ∨ pattern = "^[a-z0-9][a-z0-9-]*$" then
    ["test-name", "my-resource-1", "a", "abc123"]
  else if strIn "^[a-zA-Z]" pattern then
    ["TestName", "myResource", "ABC"]
  else if strIn "^[0-9]" pattern then
    ["123", "1test", "999"]
  else
    ["test", "test123", "test-123"]

/-- `_generate_non_matching_strings`: fixed negative samples. -/
def generate_non_matching_strings (_pattern : String) : List String :=
  ["123test", "-test", "TEST_NAME", "test name", "", "test!@#"]

def generate_pattern_tests (re : RegexEngine) (pattern : String) :
    List ValidationTestCase :=
  match re.compile pattern with
  | none => []
  | some rmatch =>
      ((generate_matching_strings pattern).take 3).enum.map
        (fun p => { name := "pattern_valid_" ++ toString p.1, value := .str p.2,
                    expected_valid := true,
                    description := "String matching pattern: " ++ p.2 }) ++
      ((((generate_non_matching_strings pattern).take 3).enum.filter
          (fun p => !rmatch p.2)).map
        (fun p => { name := "pattern_invalid_" ++ toString p.1, value := .str p.2,
                    expected_valid := false,
                    description := "String not matching pattern: " ++ p.2 }))

def generate_minimum_tests (minimum : ℚ) : List ValidationTestCase :=
  [{ name := "minimum_exact_" ++ toString minimum, value := .num minimum,
     expected_valid := true, description := "Value exactly at minimum" },
   { name := "minimum_below_" ++ toString minimum, value := .num (minimum - 1),
     expected_valid := false, description := "Value below minimum" },
   { name := "minimum_above_" ++ toString minimum, value := .num (minimum + 1),
     expected_valid := true, description := "Value above minimum" }]

def generate_maximum_tests (maximum : ℚ) : List ValidationTestCase :=
  [{ name := "maximum_exact_" ++ toString maximum, value := .num maximum,
     expected_valid := true, description := "Value exactly at maximum" },
   { name := "maximum_above_" ++ toString maximum, value := .num (maximum + 1),
     expected_valid := false, description := "Value above maximum" },
   { name := "maximum_below_" ++ toString maximum, value := .num (maximum - 1),
     expected_valid := true, description := "Value below maximum" }]

def generate_exclusive_minimum_tests (exclusive_min : ℚ) : List ValidationTestCase :=
  [{ name := "exclusiveMinimum_exact_" ++ toString exclusive_min,
     value := .num exclusive_min, expected_valid := false,
     description := "Value at exclusive minimum" },
   { name := "exclusiveMinimum_above_" ++ toString exclusive_min,
     value := .num (exclusive_min + 1/1000), expected_valid := true,
     description := "Value just above exclusive minimum" }]

def generate_exclusive_maximum_tests (exclusive_max : ℚ) : List ValidationTestCase :=
  [{ name := "exclusiveMaximum_exact_" ++ toString exclusive_max,
     value := .num exclusive_max, expected_valid := false,
     description := "Value at exclusive maximum" },
   { name := "exclusiveMaximum_below_" ++ toString exclusive_max,
     value := .num (exclusive_max - 1/1000), expected_valid := true,
     description := "Value just below exclusive maximum" }]

def generate_min_items_tests (min_items : ℤ) : List ValidationTestCase :=
  [{ name := "minItems_exact_" ++ toString min_items,
     value := .arr (itemRep min_items), expected_valid := true,
     description := "Array with exactly " ++ toString min_items ++ " items" }] ++
  (if 0 < min_items then
    [{ name := "minItems_below_" ++ toString min_items,
       value := .arr (itemRep (min_items - 1)), expected_valid := false,
       description := "Array with " ++ toString (min_items - 1) ++ " items" },
     { name := "minItems_empty", value := .arr [], expected_valid := false,
       description := "Empty array" }]
   else [])

def generate_max_items_tests (max_items : ℤ) : List ValidationTestCase :=
  [{ name := "maxItems_exact_" ++ toString max_items,
     value := .arr (itemRep max_items), expected_valid := true,
     description := "Array with exactly " ++ toString max_items ++ " items" },
   { name := "maxItems_above_" ++ toString max_items,
     value := .arr (itemRep (max_items + 1)), expected_valid := false,
     description := "Array with " ++ toString (max_items + 1) ++ " items" },
   { name := "maxItems_empty", value := .arr [], expected_valid := true,
     description := "Empty array" }]

def generate_unique_items_tests (unique_items : Bool) : List ValidationTestCase :=
  if unique_items then
    [{ name := "uniqueItems_unique", value := .arr [.str "a", .str "b", .str "c"],
       expected_valid := true, description := "Array with unique items" },
     { name := "uniqueItems_duplicate", value := .arr [.str "a", .str "b", .str "a"],
       expected_valid := false, description := "Array with duplicate items" }]
  else []

def generate_enum_tests (enum_values : List JValue) : List ValidationTestCase :=
  (enum_values.take 3).enum.map
    (fun p => { name := "enum_valid_" ++ toString p.1, value := p.2,
                expected_valid := true,
                description := "Valid enum value: " ++ pyStr p.2 }) ++
  (if memJ (.str "INVALID_ENUM_VALUE_12345") enum_values then []
   else [{ name := "enum_invalid", value := .str "INVALID_ENUM_VALUE_12345",
           expected_valid := false,
           description := "Invalid enum value: INVALID_ENUM_VALUE_12345" }])

/-- The fixed per-type counter-example table of `_generate_type_tests`. -/
def type_examples (t : String) : Option (JValue × JValue × JValue) :=
  if t = "string" then some (.str "test_string", .int 123, .bool true)
  else if t = "integer" then some (.int 42, .str "not_int", .num (157/50))
  else if t = "number" then some (.num (157/50), .str "not_number", .bool true)
  else if t = "boolean" then some (.bool true, .str "not_bool", .int 1)
  else if t = "array" then some (.arr [.str "item"], .str "not_array", .obj [])
  else if t = "object" then some (.obj [("key", .str "value")], .str "not_object", .arr [])
  else none

def generate_type_tests (expected_type : String) : List ValidationTestCase :=
  match type_examples expected_type with
  | none => []
  | some (valid, inv1, inv2) =>
      [{ name := "type_valid_" ++ expected_type, value := valid,
         expected_valid := true,
         description := "Valid " ++ expected_type ++ " value" }] ++
      ([inv1, inv2].enum.map
        (fun p => { name := "type_invalid_" ++ expected_type ++ "_" ++ toString p.1,
                    value := p.2, expected_valid := false,
                    description := "Invalid type (expected " ++ expected_type ++ ")" }))

def generate_required_tests (required_fields : List JValue) : List ValidationTestCase :=
  required_fields.map
    (fun fv => { name := "required_missing_" ++ pyStr fv,
                 value := .obj [("_omit_field", fv)], expected_valid := false,
                 description := "Missing required field: " ++ pyStr fv })

/-- `ConstraintValidator.generate_test_cases`: dispatch over the fixed
registry of generators; unsupported constraint types yield no tests, and
so does a value whose type does not fit the generator (where the Python
generator body would raise). -/
def generate_test_cases (re : RegexEngine) (constraint_type : String)
    (constraint_value : JValue) : List ValidationTestCase :=
  if constraint_type = "minLength" then
    match constraint_value with
    | .int n => generate_min_length_tests n
    | _ => []
  else if constraint_type = "maxLength" then
    match constraint_value with
    | .int n => generate_max_length_tests n
    | _ => []
  else if constraint_type = "pattern" then
    match constraint_value with
    | .str p => generate_pattern_tests re p
    | _ => []
  else if constraint_type = "minimum" then
    match constraint_value with
    | .int n => generate_minimum_tests (n : ℚ)
    | .num q => generate_minimum_tests q
    | _ => []
  else if constraint_type = "maximum" then
    match constraint_value with
    | .int n => generate_maximum_tests (n : ℚ)
    | .num q => generate_maximum_tests q
    | _ => []
  else if constraint_type = "exclusiveMinimum" then
    match constraint_value with
    | .int n => generate_exclusive_minimum_tests (n : ℚ)
    | .num q => generate_exclusive_minimum_tests q
    | _ => []
  else if constraint_type = "exclusiveMaximum" then
    match constraint_value with
    | .int n => generate_exclusive_maximum_tests (n : ℚ)
    | .num q => generate_exclusive_maximum_tests q
    | _ => []
  else if constraint_type = "minItems" then
    match constraint_value with
    | .int n => generate_min_items_tests n
    | _ => []
  else if constraint_type = "maxItems" then
    match constraint_value with
    | .int n => generate_max_items_tests n
    | _ => []
  else if constraint_type = "uniqueItems" then
    match constraint_value with
    | .bool b => generate_unique_items_tests b
    | _ => []
  else if constraint_type = "enum" then
    match constraint_value with
    | .arr l => generate_enum_tests l
    | _ => []
  else if constraint_type = "type" then
    match constraint_value with
    | .str t => generate_type_tests t
    | _ => []
  else if constraint_type = "required" then
    match constraint_value with
    | .arr l => generate_required_tests l
    | _ => []
  else []

/-- C8: for every exclusive bound `X`, the generated test cases are
exactly two: the boundary value `X` itself expected invalid, and the
value offset by 0.001 on the permitted side expected valid —
`X + 0.001` for `exclusiveMinimum`, `X − 0.001` for `exclusiveMaximum`. -/
theorem exclusive_bound_tests (re : RegexEngine) (x : ℚ) :
    (∃ t1 t2, generate_test_cases re "exclusiveMinimum" (.num x) = [t1, t2] ∧
      t1.value = .num x ∧ t1.expected_valid = false ∧
      t2.value = .num (x + 1/1000) ∧ t2.expected_valid = true) ∧
    (∃ t1 t2, generate_test_cases re "exclusiveMaximum" (.num x) = [t1, t2] ∧
      t1.value = .num x ∧ t1.expected_valid = false ∧
      t2.value = .num (x - 1/1000) ∧ t2.expected_valid = true) :=
  ⟨⟨_, _, rfl, rfl, rfl, rfl, rfl⟩, ⟨_, _, rfl, rfl, rfl, rfl, rfl⟩⟩

/-- Closed instance of `exclusive_bound_tests` at bound 5. -/
theorem exclusive_bound_tests_witness :
    (∃ t1 t2, generate_test_cases ⟨fun _ => none⟩ "exclusiveMinimum" (.num 5) =
        [t1, t2] ∧
      t1.value = .num 5 ∧ t1.expected_valid = false ∧
      t2.value = .num (5 + 1/1000) ∧ t2.expected_valid = true) ∧
    (∃ t1 t2, generate_test_cases ⟨fun _ => none⟩ "exclusiveMaximum" (.num 5) =
        [t1, t2] ∧
      t1.value = .num 5 ∧ t1.expected_valid = false ∧
      t2.value = .num (5 - 1/1000) ∧ t2.expected_valid = true) :=
  exclusive_bound_tests ⟨fun _ => none⟩ 5

/-! ### The constraint type encoded in test-case names (C10) -/

theorem string_data_append (s t : String) : (s ++ t).data = s.data ++ t.data := by
  cases s
  cases t
  rfl

theorem string_append_assoc (a b c : String) : (a ++ b) ++ c = a ++ (b ++ c) := by
  cases a
  cases b
  cases c
  exact congrArg String.mk (List.append_assoc _ _ _)

theorem takeWhile_ne_underscore (cs rest : List Char) (h : ∀ c ∈ cs, c ≠ '_') :
    (cs ++ '_' :: rest).takeWhile (fun c => decide (c ≠ '_')) = cs := by
  induction cs with
  | nil => simp [List.takeWhile]
  | cons c cs ih =>
    rw [List.cons_append, List.takeWhile_cons_of_pos
      (by simpa using h c (List.mem_cons_self c cs))]
    rw [ih (fun c' hc' => h c' (List.mem_cons_of_mem c hc'))]

theorem splitHead_concat (pre suf : String) (h : ∀ c ∈ pre.data, c ≠ '_') :
    splitHead (pre ++ "_" ++ suf) = pre := by
  unfold splitHead
  rw [string_data_append, string_data_append]
  rw [show ("_" : String).data = ['_'] from rfl, List.append_assoc, List.singleton_append]
  rw [takeWhile_ne_underscore pre.data suf.data h]

theorem splitHead_lit_append (lit pre mid : String) (hlit : lit = pre ++ "_" ++ mid)
    (h : ∀ c ∈ pre.data, c ≠ '_') (X : String) : splitHead (lit ++ X) = pre := by
  subst hlit
  rw [string_append_assoc (pre ++ "_") mid X]
  exact splitHead_concat pre (mid ++ X) h

theorem names_min_length (n : ℤ) (tc : ValidationTestCase)
    (h : tc ∈ generate_min_length_tests n) : splitHead tc.name = "minLength" := by
  unfold generate_min_length_tests at h
  by_cases hn : 0 < n <;>
    simp only [hn, if_true, if_false, List.mem_append, List.mem_cons,
      List.not_mem_nil, or_false] at h
  · rcases h with (rfl | rfl | rfl) | rfl
    · exact splitHead_lit_append _ "minLength" "exact_" (by decide) (by decide) _
    · exact splitHead_lit_append _ "minLength" "below_" (by decide) (by decide) _
    · decide
    · exact splitHead_lit_append _ "minLength" "above_" (by decide) (by decide) _
  · rcases h with rfl | rfl
    · exact splitHead_lit_append _ "minLength" "exact_" (by decide) (by decide) _
    · exact splitHead_lit_append _ "minLength" "above_" (by decide) (by decide) _

theorem names_max_length (n : ℤ) (tc : ValidationTestCase)
    (h : tc ∈ generate_max_length_tests n) : splitHead tc.name = "maxLength" := by
  unfold generate_max_length_tests at h
  simp only [List.mem_cons, List.not_mem_nil, or_false] at h
  rcases h with rfl | rfl | rfl | rfl
  · exact splitHead_lit_append _ "maxLength" "exact_" (by decide) (by decide) _
  · exact splitHead_lit_append _ "maxLength" "above_" (by decide) (by decide) _
  · exact splitHead_lit_append _ "maxLength" "overflow_" (by decide) (by decide) _
  · decide

theorem names_pattern (re : RegexEngine) (p : String) (tc : ValidationTestCase)
    (h : tc ∈ generate_pattern_tests re p) : splitHead tc.name = "pattern" := by
  unfold generate_pattern_tests at h
  rcases hc : re.compile p with - | rmatch
  · rw [hc] at h
    exact absurd h (by simp)
  · rw [hc] at h
    dsimp only at h
    rcases List.mem_append.mp h with h1 | h1
    · obtain ⟨q, -, rfl⟩ := List.mem_map.mp h1
      exact splitHead_lit_append _ "pattern" "valid_" (by decide) (by decide) _
    · obtain ⟨q, -, rfl⟩ := List.mem_map.mp h1
      exact splitHead_lit_append _ "pattern" "invalid_" (by decide) (by decide) _

theorem names_minimum (q : ℚ) (tc : ValidationTestCase)
    (h : tc ∈ generate_minimum_tests q) : splitHead tc.name = "minimum" := by
  unfold generate_minimum_tests at h
  simp only [List.mem_cons, List.not_mem_nil, or_false] at h
  rcases h with rfl | rfl | rfl
  · exact splitHead_lit_append _ "minimum" "exact_" (by decide) (by decide) _
  · exact splitHead_lit_append _ "minimum" "below_" (by decide) (by decide) _
  · exact splitHead_lit_append _ "minimum" "above_" (by decide) (by decide) _

theorem names_maximum (q : ℚ) (tc : ValidationTestCase)
    (h : tc ∈ generate_maximum_tests q) : splitHead tc.name = "maximum" := by
  unfold generate_maximum_tests at h
  simp only [List.mem_cons, List.not_mem_nil, or_false] at h
  rcases h with rfl | rfl | rfl
  · exact splitHead_lit_append _ "maximum" "exact_" (by decide) (by decide) _
  · exact splitHead_lit_append _ "maximum" "above_" (by decide) (by decide) _
  · exact splitHead_lit_append _ "maximum" "below_" (by decide) (by decide) _

theorem names_exclusive_minimum (q : ℚ) (tc : ValidationTestCase)
    (h : tc ∈ generate_exclusive_minimum_tests q) :
    splitHead tc.name = "exclusiveMinimum" := by
  unfold generate_exclusive_minimum_tests at h
  simp only [List.mem_cons, List.not_mem_nil, or_false] at h
  rcases h with rfl | rfl
  · exact splitHead_lit_append _ "exclusiveMinimum" "exact_" (by decide) (by decide) _
  · exact splitHead_lit_append _ "exclusiveMinimum" "above_" (by decide) (by decide) _

theorem names_exclusive_maximum (q : ℚ) (tc : ValidationTestCase)
    (h : tc ∈ generate_exclusive_maximum_tests q) :
    splitHead tc.name = "exclusiveMaximum" := by
  unfold generate_exclusive_maximum_tests at h
  simp only [List.mem_cons, List.not_mem_nil, or_false] at h
  rcases h with rfl | rfl
  · exact splitHead_lit_append _ "exclusiveMaximum" "exact_" (by decide) (by decide) _
  · exact splitHead_lit_append _ "exclusiveMaximum" "below_" (by decide) (by decide) _

theorem names_min_items (n : ℤ) (tc : ValidationTestCase)
    (h : tc ∈ generate_min_items_tests n) : splitHead tc.name = "minItems" := by
  unfold generate_min_items_tests at h
  by_cases hn : 0 < n <;>
    simp only [hn, if_true, if_false, List.mem_append, List.mem_cons,
      List.not_mem_nil, or_false] at h
  · rcases h with rfl | rfl | rfl
    · exact splitHead_lit_append _ "minItems" "exact_" (by decide) (by decide) _
    · exact splitHead_lit_append _ "minItems" "below_" (by decide) (by decide) _
    · decide
  · rcases h with rfl
    exact splitHead_lit_append _ "minItems" "exact_" (by decide) (by decide) _

theorem names_max_items (n : ℤ) (tc : ValidationTestCase)
    (h : tc ∈ generate_max_items_tests n) : splitHead tc.name = "maxItems" := by
  unfold generate_max_items_tests at h
  simp only [List.mem_cons, List.not_mem_nil, or_false] at h
  rcases h with rfl | rfl | rfl
  · exact splitHead_lit_append _ "maxItems" "exact_" (by decide) (by decide) _
  · exact splitHead_lit_append _ "maxItems" "above_" (by decide) (by decide) _
  · decide

theorem names_unique_items (b : Bool) (tc : ValidationTestCase)
    (h : tc ∈ generate_unique_items_tests b) : splitHead tc.name = "uniqueItems" := by
  unfold generate_unique_items_tests at h
  rcases b with - | -
  · exact absurd h (by simp)
  · simp only [if_true, List.mem_cons, List.not_mem_nil, or_false] at h
    rcases h with rfl | rfl
    · decide
    · decide

theorem names_enum (l : List JValue) (tc : ValidationTestCase)
    (h : tc ∈ generate_enum_tests l) : splitHead tc.name = "enum" := by
  unfold generate_enum_tests at h
  rcases List.mem_append.mp h with h1 | h1
  · obtain ⟨q, -, rfl⟩ := List.mem_map.mp h1
    exact splitHead_lit_append _ "enum" "valid_" (by decide) (by decide) _
  · by_cases hm : memJ (.str "INVALID_ENUM_VALUE_12345") l
    · rw [if_pos hm] at h1
      exact absurd h1 (by simp)
    · rw [if_neg hm] at h1
      simp only [List.mem_cons, List.not_mem_nil, or_false] at h1
      subst h1
      decide

theorem names_type (t : String) (tc : ValidationTestCase)
    (h : tc ∈ generate_type_tests t) : splitHead tc.name = "type" := by
  unfold generate_type_tests at h
  rcases hx : type_examples t with - | ⟨v1, i1, i2⟩
  · rw [hx] at h
    exact absurd h (by simp)
  · rw [hx] at h
    dsimp only at h
    rcases List.mem_append.mp h with h1 | h1
    · simp only [List.mem_cons, List.not_mem_nil, or_false] at h1
      subst h1
      exact splitHead_lit_append _ "type" "valid_" rfl (by decide) _
    · obtain ⟨q, -, rfl⟩ := List.mem_map.mp h1
      show splitHead ("type_invalid_" ++ t ++ "_" ++ toString q.1) = "type"
      rw [string_append_assoc ("type_invalid_" ++ t) "_" (toString q.1),
        string_append_assoc "type_invalid_" t ("_" ++ toString q.1)]
      exact splitHead_lit_append _ "type" "invalid_" rfl (by decide) _

theorem names_required (l : List JValue) (tc : ValidationTestCase)
    (h : tc ∈ generate_required_tests l) : splitHead tc.name = "required" := by
  unfold generate_required_tests at h
  obtain ⟨fv, -, rfl⟩ := List.mem_map.mp h
  exact splitHead_lit_append _ "required" "missing_" (by decide) (by decide) _

theorem names_generate (re : RegexEngine) (ct : String) (v : JValue)
    (tc : ValidationTestCase) (h : tc ∈ generate_test_cases re ct v) :
    splitHead tc.name = ct := by
  unfold generate_test_cases at h
  by_cases h1 : ct = "minLength"
  · rw [if_pos h1] at h
    subst h1
    cases v <;> first
      | exact names_min_length _ tc h
      | exact absurd h (by simp)
  rw [if_neg h1] at h
  by_cases h2 : ct = "maxLength"
  · rw [if_pos h2] at h
    subst h2
    cases v <;> first
      | exact names_max_length _ tc h
      | exact absurd h (by simp)
  rw [if_neg h2] at h
  by_cases h3 : ct = "pattern"
  · rw [if_pos h3] at h
    subst h3
    cases v <;> first
      | exact names_pattern re _ tc h
      | exact absurd h (by simp)
  rw [if_neg h3] at h
  by_cases h4 : ct = "minimum"
  · rw [if_pos h4] at h
    subst h4
    cases v <;> first
      | exact names_minimum _ tc h
      | exact absurd h (by simp)
  rw [if_neg h4] at h
  by_cases h5 : ct = "maximum"
  · rw [if_pos h5] at h
    subst h5
    cases v <;> first
      | exact names_maximum _ tc h
      | exact absurd h (by simp)
  rw [if_neg h5] at h
  by_cases h6 : ct = "exclusiveMinimum"
  · rw [if_pos h6] at h
    subst h6
    cases v <;> first
      | exact names_exclusive_minimum _ tc h
      | exact absurd h (by simp)
  rw [if_neg h6] at h
  by_cases h7 : ct = "exclusiveMaximum"
  · rw [if_pos h7] at h
    subst h7
    cases v <;> first
      | exact names_exclusive_maximum _ tc h
      | exact absurd h (by simp)
  rw [if_neg h7] at h
  by_cases h8 : ct = "minItems"
  · rw [if_pos h8] at h
    subst h8
    cases v <;> first
      | exact names_min_items _ tc h
      | exact absurd h (by simp)
  rw [if_neg h8] at h
  by_cases h9 : ct = "maxItems"
  · rw [if_pos h9] at h
    subst h9
    cases v <;> first
      | exact names_max_items _ tc h
      | exact absurd h (by simp)
  rw [if_neg h9] at h
  by_cases h10 : ct = "uniqueItems"
  · rw [if_pos h10] at h
    subst h10
    cases v <;> first
      | exact names_unique_items _ tc h
      | exact absurd h (by simp)
  rw [if_neg h10] at h
  by_cases h11 : ct = "enum"
  · rw [if_pos h11] at h
    subst h11
    cases v <;> first
      | exact names_enum _ tc h
      | exact absurd h (by simp)
  rw [if_neg h11] at h
  by_cases h12 : ct = "type"
  · rw [if_pos h12] at h
    subst h12
    cases v <;> first
      | exact names_type _ tc h
      | exact absurd h (by simp)
  rw [if_neg h12] at h
  by_cases h13 : ct = "required"
  · rw [if_pos h13] at h
    subst h13
    cases v <;> first
      | exact names_required _ tc h
      | exact absurd h (by simp)
  rw [if_neg h13] at h
  exact absurd h (by simp)

/-- C10: every test case emitted by `generate_test_cases` for a
supported constraint type carries that type as the prefix of its name
before the first underscore; consequently `compare_results`, which
derives `constraint_type` by splitting the name at the first
underscore, always reports the originating constraint type on the
discrepancy it emits. -/
theorem compare_results_reports_origin (re : RegexEngine) (ct : String) (v : JValue)
    (tc : ValidationTestCase) (htc : tc ∈ generate_test_cases re ct v)
    (acc : Bool) (d : Discrepancy) (hd : compare_results tc acc = some d) :
    splitHead tc.name = ct ∧ d.constraint_type = ct := by
  have hname := names_generate re ct v tc htc
  refine ⟨hname, ?_⟩
  unfold compare_results at hd
  split at hd
  · exact absurd hd (by simp)
  · simp only [Option.some.injEq] at hd
    subst hd
    exact hname

/-- Closed instance of `compare_results_reports_origin` on the first
`uniqueItems` test case rejected by the API. -/
theorem compare_results_reports_origin_witness :
    splitHead (ValidationTestCase.mk "uniqueItems_unique"
        (.arr [.str "a", .str "b", .str "c"]) true "Array with unique items").name =
        "uniqueItems" ∧
      (Discrepancy.mk "" "" "uniqueItems" .SPEC_LOOSER (.bool true) (.bool false)
        [.arr [.str "a", .str "b", .str "c"]] "").constraint_type = "uniqueItems" :=
  compare_results_reports_origin ⟨fun _ => none⟩ "uniqueItems" (.bool true)
    (ValidationTestCase.mk "uniqueItems_unique"
      (.arr [.str "a", .str "b", .str "c"]) true "Array with unique items")
    (List.Mem.head _) false
    (Discrepancy.mk "" "" "uniqueItems" .SPEC_LOOSER (.bool true) (.bool false)
      [.arr [.str "a", .str "b", .str "c"]] "") rfl

end F5XC
